import Mathlib

/-!
# code-type backend: account deletion, migrations and practice history

A shallow embedding of the Go packages `kratos`, `account`, `db`, `storage` and
`handlers` of the backend service.  Go `error` results are `Option GoError`
(`none` is `nil`), calls that touch the outside world thread the state of the
system they talk to, and every external system is an argument of the model.
-/

namespace CodeType

/-! ## Go errors -/

/-- A Go error value: a fresh error, or one that wraps another error through `%w`. -/
inductive GoError where
  | leaf (msg : String)
  | wrap (ctx : String) (inner : GoError)
deriving DecidableEq, Repr

/-- The method `Error()`: the message, the wrapped error's message appended to the context. -/
def GoError.Error : GoError → String
  | .leaf msg => msg
  | .wrap ctx inner => ctx ++ inner.Error

/-- The function `errors.Unwrap`. -/
def GoError.Unwrap : GoError → Option GoError
  | .leaf _ => none
  | .wrap _ inner => some inner

/-! ## package kratos -/

/-- An outgoing HTTP request, as far as the admin client sets it. -/
structure Request where
  method : String
  url : String
deriving DecidableEq, Repr

/-- The fields of `http.Response` the admin client reads. -/
structure Response where
  StatusCode : Int
  Status : String
deriving DecidableEq, Repr

/-- The HTTP stack of the admin client.  `ι` is the state of the identity provider behind it.
`parseErr` is the failure of `url.Parse` inside `http.NewRequestWithContext`, `Do` is
`http.Client.Do`: a transport error or a response, and the provider's next state. -/
structure HttpClient (ι : Type) where
  parseErr : String → Option GoError
  Do : Request → ι → Except GoError Response × ι

/-- The struct `AdminClient`. -/
structure AdminClient (ι : Type) where
  baseURL : String
  httpClient : HttpClient ι

/-- The function `http.NewRequestWithContext` with a constant valid method and a live context. -/
def NewRequestWithContext {ι : Type} (h : HttpClient ι) (method url : String) :
    Except GoError Request :=
  match h.parseErr url with
  | some err => .error err
  | none => .ok { method := method, url := url }

/-- The URL `fmt.Sprintf("%s/identities/%s", c.baseURL, identityID)`. -/
def AdminClient.identityURL {ι : Type} (c : AdminClient ι) (identityID : String) : String :=
  c.baseURL ++ "/identities/" ++ identityID

/-- The method `AdminClient.DeleteIdentity`. -/
def AdminClient.DeleteIdentity {ι : Type} (c : AdminClient ι) (identityID : String) (p : ι) :
    Option GoError × ι :=
  match NewRequestWithContext c.httpClient "DELETE" (c.identityURL identityID) with
  | .error err => (some (.wrap "build delete identity request: " err), p)
  | .ok req =>
    match c.httpClient.Do req p with
    | (.error err, p1) => (some (.wrap "call kratos admin api: " err), p1)
    | (.ok resp, p1) =>
      if resp.StatusCode = 204 ∨ resp.StatusCode = 404 then (none, p1)
      else (some (.leaf ("kratos admin api returned " ++ resp.Status)), p1)

/-! ## package storage -/

/-- Instants of `time.Time`, as a count of time units since an epoch. -/
abbrev Time := Int

/-- The struct `HistoryEntry`. -/
structure HistoryEntry where
  ID : String
  UserID : String
  Language : String
  WPM : Int
  Accuracy : Int
  Errors : Int
  DurationSeconds : Int
  CompletedAt : Time
  CreatedAt : Time
deriving DecidableEq, Repr

/-- The struct `CreateHistoryParams`. -/
structure CreateHistoryParams where
  UserID : String
  Language : String
  WPM : Int
  Accuracy : Int
  Errors : Int
  DurationSeconds : Int
  CompletedAt : Time
deriving DecidableEq, Repr

/-- A statement the history repository sends to the database, with its arguments. -/
inductive Stmt where
  | insert (params : CreateHistoryParams)
  | select (userID : String) (limit offset : Int)
  | delete (userID : String)
deriving DecidableEq, Repr

/-- The database behind `sql.DB`, as the history repository sees it: the rows of
`practice_history` in insertion order; the failure the driver reports for a statement (`none`
when the database is reachable), for reading a row of a result, and for ending the iteration
over a result; the generator state for `id` and the clock for `created_at`; and the log of
statements received so far (oldest first). -/
structure SqlDB where
  practice_history : List HistoryEntry
  fault : Option GoError
  scanFault : Option GoError
  rowsFault : Option GoError
  idSeq : Nat
  now : Time
  received : List Stmt
deriving DecidableEq, Repr

/-- The method `HistoryRepository.DeleteByUser`: `DELETE FROM practice_history WHERE user_id = $1`. -/
def HistoryRepository.DeleteByUser (userID : String) (db : SqlDB) : Option GoError × SqlDB :=
  let db1 := { db with received := db.received ++ [Stmt.delete userID] }
  match db.fault with
  | some err => (some (.wrap "delete history entries: " err), db1)
  | none =>
    (none, { db1 with practice_history := db.practice_history.filter (fun e => e.UserID ≠ userID) })

/-- The error of the database for a negative `LIMIT`. -/
def negativeLimit : GoError :=
  .leaf "ERROR: LIMIT must not be negative (SQLSTATE 2201W)"

/-- The error of the database for a negative `OFFSET`. -/
def negativeOffset : GoError :=
  .leaf "ERROR: OFFSET must not be negative (SQLSTATE 2201X)"

/-- The order of `ORDER BY completed_at DESC`: `a` may stand before `b`. -/
def completedDesc (a b : HistoryEntry) : Prop :=
  b.CompletedAt ≤ a.CompletedAt

instance completedDesc.decidable : DecidableRel completedDesc :=
  fun a b => inferInstanceAs (Decidable (b.CompletedAt ≤ a.CompletedAt))

/-- The rows the query of `ListByUser` selects: those of the user, ordered by `completed_at`
descending (rows with equal `completed_at` in insertion order), after `OFFSET` and `LIMIT`. -/
def selectByUser (rows : List HistoryEntry) (userID : String) (limit offset : Int) :
    List HistoryEntry :=
  (((rows.filter (fun e => e.UserID = userID)).insertionSort completedDesc).drop
    offset.toNat).take limit.toNat

/-- The method `HistoryRepository.ListByUser`. -/
def HistoryRepository.ListByUser (userID : String) (limit offset : Int) (db : SqlDB) :
    Except GoError (List HistoryEntry) × SqlDB :=
  let db1 := { db with received := db.received ++ [Stmt.select userID limit offset] }
  match db.fault with
  | some err => (.error (.wrap "query history entries: " err), db1)
  | none =>
    if limit < 0 then (.error (.wrap "query history entries: " negativeLimit), db1)
    else if offset < 0 then (.error (.wrap "query history entries: " negativeOffset), db1)
    else
      let rows := selectByUser db.practice_history userID limit offset
      match rows, db.scanFault with
      | _ :: _, some err => (.error (.wrap "scan history entry: " err), db1)
      | _, _ =>
        match db.rowsFault with
        | some err => (.error (.wrap "iterate history entries: " err), db1)
        | none => (.ok rows, db1)

/-- Modelled from the spec: the definition of the table `practice_history` is in a migration
script that is not under `src/`; by the spec the insert assigns a generated `id` and the
server's time as `created_at`.  The row the `INSERT ... RETURNING` statement stores. -/
def insertedRow (params : CreateHistoryParams) (db : SqlDB) : HistoryEntry :=
  { ID := toString db.idSeq
    UserID := params.UserID
    Language := params.Language
    WPM := params.WPM
    Accuracy := params.Accuracy
    Errors := params.Errors
    DurationSeconds := params.DurationSeconds
    CompletedAt := params.CompletedAt
    CreatedAt := db.now }

/-- The method `HistoryRepository.Create`.  `QueryRowContext` defers a failure of the statement
to `Scan`; a failure of `Scan` itself comes after the row is stored. -/
def HistoryRepository.Create (params : CreateHistoryParams) (db : SqlDB) :
    Except GoError HistoryEntry × SqlDB :=
  let db1 := { db with received := db.received ++ [Stmt.insert params] }
  match db.fault with
  | some err => (.error (.wrap "scan inserted history entry: " err), db1)
  | none =>
    let db2 := { db1 with
      practice_history := db.practice_history ++ [insertedRow params db]
      idSeq := db.idSeq + 1 }
    match db.scanFault with
    | some err => (.error (.wrap "scan inserted history entry: " err), db2)
    | none => (.ok (insertedRow params db), db2)

/-! ## package middleware -/

/-- The struct `ErrorResponse`. -/
structure ErrorResponse where
  Error : String
  Message : String
  Code : String
deriving DecidableEq, Repr

/-- The function `getErrorCode`. -/
def getErrorCode (statusCode : Int) : String :=
  if statusCode ≥ 500 then "SERVER_ERROR"
  else if statusCode = 401 then "UNAUTHORIZED"
  else if statusCode = 403 then "FORBIDDEN"
  else if statusCode = 404 then "NOT_FOUND"
  else if statusCode = 400 then "BAD_REQUEST"
  else if statusCode = 422 then "VALIDATION_ERROR"
  else "UNKNOWN_ERROR"

/-- The function `http.StatusText` on the status codes the handlers write. -/
def StatusText (statusCode : Int) : String :=
  if statusCode = 400 then "Bad Request"
  else if statusCode = 401 then "Unauthorized"
  else if statusCode = 422 then "Unprocessable Entity"
  else if statusCode = 500 then "Internal Server Error"
  else ""

/-! ## package handlers -/

/-- The constant `defaultHistoryLimit`. -/
def defaultHistoryLimit : Int := 50

/-- The constant `maxHistoryLimit`. -/
def maxHistoryLimit : Int := 100

/-- The struct `historyEntryResponse`. -/
structure historyEntryResponse where
  ID : String
  Language : String
  WPM : Int
  Accuracy : Int
  Errors : Int
  Time : Int
  Date : String
  CreatedAt : String
  CompletedAt : String
deriving DecidableEq, Repr

/-- The struct `createHistoryRequest`. -/
structure createHistoryRequest where
  Language : String
  WPM : Int
  Accuracy : Int
  Errors : Int
  Time : Int
  Date : String
deriving DecidableEq, Repr

/-- What a handler writes to the `http.ResponseWriter`. -/
inductive Payload where
  | error (e : ErrorResponse)
  | entries (l : List historyEntryResponse)
  | entry (e : historyEntryResponse)
  | empty
deriving DecidableEq, Repr

/-- The response of a handler: status code and payload. -/
structure HttpResponse where
  status : Int
  payload : Payload
deriving DecidableEq, Repr

/-- The function `middleware.WriteError`, through `writeErrorResponse`. -/
def WriteError (statusCode : Int) (message : String) : HttpResponse :=
  { status := statusCode
    payload := .error
      { Error := StatusText statusCode, Message := message, Code := getErrorCode statusCode } }

/-- The largest value of a 64-bit `int`. -/
def maxInt : Int := 2 ^ 63 - 1

/-- The smallest value of a 64-bit `int`. -/
def minInt : Int := -(2 ^ 63)

/-- The value of a sequence of decimal digits, `none` when a character is not a digit. -/
def digitsValue : List Char → Nat → Option Nat
  | [], acc => some acc
  | c :: rest, acc =>
    if '0' ≤ c ∧ c ≤ '9' then digitsValue rest (acc * 10 + (c.toNat - '0'.toNat)) else none

/-- The function `strconv.Atoi` of the Go standard library for a 64-bit `int`: an optional sign
followed by one or more decimal digits, with an error for any other text and for a value
outside the range of `int`. -/
def Atoi (s : String) : Except GoError Int :=
  let digits := match s.data with
    | '-' :: rest => rest
    | '+' :: rest => rest
    | cs => cs
  let neg := match s.data with
    | '-' :: _ => true
    | _ => false
  if digits = [] then
    .error (.leaf ("strconv.Atoi: parsing " ++ s.quote ++ ": invalid syntax"))
  else
    match digitsValue digits 0 with
    | none => .error (.leaf ("strconv.Atoi: parsing " ++ s.quote ++ ": invalid syntax"))
    | some n =>
      let v : Int := if neg then -(n : Int) else (n : Int)
      if v < minInt ∨ maxInt < v then
        .error (.leaf ("strconv.Atoi: parsing " ++ s.quote ++ ": value out of range"))
      else .ok v

/-- The function `parseLimit`. -/
def parseLimit (raw : String) : Int :=
  if raw = "" then defaultHistoryLimit
  else
    match Atoi raw with
    | .error _ => defaultHistoryLimit
    | .ok value =>
      if value ≤ 0 then defaultHistoryLimit
      else if value > maxHistoryLimit then maxHistoryLimit
      else value

/-- The function `parseOffset`. -/
def parseOffset (raw : String) : Int :=
  if raw = "" then 0
  else
    match Atoi raw with
    | .error _ => 0
    | .ok value => if value < 0 then 0 else value

/-- The function `errValidation`. -/
def errValidation (message : String) : GoError :=
  .leaf message

/-- The function `isSupportedLanguage`. -/
def isSupportedLanguage (language : String) : Bool :=
  if language = "javascript" ∨ language = "python" ∨ language = "go" then true else false

/-- The function `unicode.IsSpace`. -/
def IsSpace (c : Char) : Bool :=
  let n := c.toNat
  (9 ≤ n && n ≤ 13) || n = 0x20 || n = 0x85 || n = 0xA0 || n = 0x1680 ||
    (0x2000 ≤ n && n ≤ 0x200A) || n = 0x2028 || n = 0x2029 || n = 0x202F || n = 0x205F ||
    n = 0x3000

/-- The function `strings.TrimSpace`. -/
def TrimSpace (s : String) : String :=
  String.mk ((s.data.dropWhile IsSpace).reverse.dropWhile IsSpace).reverse

/-- The function `validateHistoryRequest`. -/
def validateHistoryRequest (req : createHistoryRequest) : Option GoError :=
  if req.Language = "" then some (errValidation "language is required")
  else if ¬ isSupportedLanguage req.Language then some (errValidation "unsupported language")
  else if req.WPM < 0 then some (errValidation "wpm must be non-negative")
  else if req.Accuracy < 0 ∨ req.Accuracy > 100 then
    some (errValidation "accuracy must be between 0 and 100")
  else if req.Errors < 0 then some (errValidation "errors must be non-negative")
  else if req.Time < 0 then some (errValidation "time must be non-negative")
  else if TrimSpace req.Date = "" then some (errValidation "date is required")
  else none

/-- The functions of package `time` the handlers use, for the layout `time.RFC3339`. -/
structure TimeLayout where
  Parse : String → Except GoError Time
  Format : Time → String

/-- A request as the history handlers read it: the user id in the request context (`none` when
`UserIDFromContext` reports that there is none), the query parameters, and what decoding the
body as JSON into a `createHistoryRequest` yields. -/
structure HttpRequest where
  ctxUserID : Option String
  query : String → String
  body : Except GoError createHistoryRequest

/-- The response entry the handlers build from a stored entry. -/
def toResponse (tl : TimeLayout) (entry : HistoryEntry) : historyEntryResponse :=
  { ID := entry.ID
    Language := entry.Language
    WPM := entry.WPM
    Accuracy := entry.Accuracy
    Errors := entry.Errors
    Time := entry.DurationSeconds
    Date := tl.Format entry.CompletedAt
    CreatedAt := tl.Format entry.CreatedAt
    CompletedAt := tl.Format entry.CompletedAt }

/-- The method `HistoryHandler.handleListHistory`; the response is written in full (the status
is 200 when the handler sets none). -/
def handleListHistory (tl : TimeLayout) (r : HttpRequest) (db : SqlDB) : HttpResponse × SqlDB :=
  match r.ctxUserID with
  | none => (WriteError 401 "User not authenticated", db)
  | some userID =>
    if userID = "" then (WriteError 401 "User not authenticated", db)
    else
      let limit := parseLimit (r.query "limit")
      let offset := parseOffset (r.query "offset")
      match HistoryRepository.ListByUser userID limit offset db with
      | (.error _, db1) => (WriteError 500 "Failed to load history", db1)
      | (.ok entries, db1) =>
        ({ status := 200, payload := .entries (entries.map (toResponse tl)) }, db1)

/-- The method `HistoryHandler.handleCreateHistory`; the response is written in full. -/
def handleCreateHistory (tl : TimeLayout) (r : HttpRequest) (db : SqlDB) :
    HttpResponse × SqlDB :=
  match r.ctxUserID with
  | none => (WriteError 401 "User not authenticated", db)
  | some userID =>
    if userID = "" then (WriteError 401 "User not authenticated", db)
    else
      match r.body with
      | .error _ => (WriteError 400 "Invalid JSON payload", db)
      | .ok req =>
        match validateHistoryRequest req with
        | some err => (WriteError 422 err.Error, db)
        | none =>
          match tl.Parse req.Date with
          | .error _ => (WriteError 400 "Invalid date format, expected RFC3339", db)
          | .ok completedAt =>
            match HistoryRepository.Create
              { UserID := userID
                Language := req.Language
                WPM := req.WPM
                Accuracy := req.Accuracy
                Errors := req.Errors
                DurationSeconds := req.Time
                CompletedAt := completedAt } db with
            | (.error _, db1) => (WriteError 500 "Failed to save history entry", db1)
            | (.ok entry, db1) => ({ status := 201, payload := .entry (toResponse tl entry) }, db1)

/-! ## package account -/

/-- The interface `HistoryCleaner` over a store with state `δ`. -/
structure HistoryCleaner (δ : Type) where
  DeleteByUser : String → δ → Option GoError × δ

/-- A call made by the account service on one of its two dependencies. -/
inductive Call where
  | DeleteIdentity (identityID : String)
  | DeleteByUser (userID : String)
deriving DecidableEq, Repr

/-- What an account deletion runs against: the identity provider, the history store, and the
calls the service has made on its dependencies so far (oldest first). -/
structure World (ι δ : Type) where
  idp : ι
  store : δ
  calls : List Call

/-- The struct `Service`. -/
structure Service (ι δ : Type) where
  adminClient : AdminClient ι
  historyRepo : HistoryCleaner δ

/-- The call `s.adminClient.DeleteIdentity(ctx, userID)`: it acts on the identity provider only. -/
def Service.callDeleteIdentity {ι δ : Type} (s : Service ι δ) (userID : String) (w : World ι δ) :
    Option GoError × World ι δ :=
  let r := s.adminClient.DeleteIdentity userID w.idp
  (r.1, { w with idp := r.2, calls := w.calls ++ [Call.DeleteIdentity userID] })

/-- The call `s.historyRepo.DeleteByUser(ctx, userID)`: it acts on the history store only. -/
def Service.callDeleteByUser {ι δ : Type} (s : Service ι δ) (userID : String) (w : World ι δ) :
    Option GoError × World ι δ :=
  let r := s.historyRepo.DeleteByUser userID w.store
  (r.1, { w with store := r.2, calls := w.calls ++ [Call.DeleteByUser userID] })

/-- The method `Service.DeleteAccount`. -/
def Service.DeleteAccount {ι δ : Type} (s : Service ι δ) (userID : String) (w : World ι δ) :
    Option GoError × World ι δ :=
  if userID = "" then (some (.leaf "user id is required"), w)
  else
    match s.callDeleteIdentity userID w with
    | (some err, w1) => (some (.wrap "delete identity: " err), w1)
    | (none, w1) =>
      match s.callDeleteByUser userID w1 with
      | (some err, w2) => (some (.wrap "delete practice history: " err), w2)
      | (none, w2) => (none, w2)

/-- An idempotent identity provider, for one identity: the request for that identity is built, a
delete of an existing identity is answered 204 and removes it, a delete of an absent identity
is answered 404 and changes nothing. -/
def AnswersIdempotently (c : AdminClient (List String)) (userID : String) : Prop :=
  c.httpClient.parseErr (c.identityURL userID) = none ∧
  (∀ p, userID ∈ p → ∃ st, c.httpClient.Do { method := "DELETE", url := c.identityURL userID } p =
      (.ok { StatusCode := 204, Status := st }, p.filter (fun x => x ≠ userID))) ∧
  (∀ p, userID ∉ p → ∃ st, c.httpClient.Do { method := "DELETE", url := c.identityURL userID } p =
      (.ok { StatusCode := 404, Status := st }, p))

/-! ## package db -/

/-- The struct `migration`. -/
structure migration where
  name : String
  sql : String
deriving DecidableEq, Repr

/-- An entry of the embedded directory `migrations`, with the bytes of the file. -/
structure DirEntry where
  Name : String
  IsDir : Bool
  content : String
deriving DecidableEq, Repr

/-- The embedded file system `migrationFiles`: what `fs.ReadDir` reports for `migrations`
(a failure, or the entries) and the failure of `ReadFile` for a path, if any. -/
structure EmbedFS where
  readDirErr : Option GoError
  entries : List DirEntry
  readFileErr : String → Option GoError

/-- The function `strings.HasSuffix`. -/
def HasSuffix (s suffix : String) : Bool :=
  suffix.data.isSuffixOf s.data

/-- Lexicographic comparison of two character sequences. -/
def lexLess : List Char → List Char → Bool
  | _, [] => false
  | [], _ :: _ => true
  | a :: as, b :: bs =>
    if a < b then true else if b < a then false else lexLess as bs

/-- Go's `<` on strings.  Go compares the UTF-8 bytes, which orders strings the way their
code points do. -/
def goLess (a b : String) : Bool :=
  lexLess a.data b.data

/-- The order `sort.Slice` establishes from the comparison `migs[i].name < migs[j].name`:
`a` may stand before `b` when `b.name < a.name` is false. -/
def nameLE (a b : migration) : Prop :=
  goLess b.name a.name = false

instance nameLE.decidable : DecidableRel nameLE :=
  fun a b => inferInstanceAs (Decidable (goLess b.name a.name = false))

/-- The call `sort.Slice(migs, less)`: the slice rearranged into ascending order of `name`
(elements with equal names, which a directory cannot produce, are kept in their order). -/
def sortSlice (migs : List migration) : List migration :=
  migs.insertionSort nameLE

/-- The loop of `loadMigrations` over the directory entries, `migs` being the slice built
so far. -/
def loadMigrations.collect (fs : EmbedFS) :
    List DirEntry → List migration → Except GoError (List migration)
  | [], migs => .ok migs
  | entry :: rest, migs =>
    if entry.IsDir ∨ ¬ HasSuffix entry.Name ".sql" then loadMigrations.collect fs rest migs
    else
      match fs.readFileErr ("migrations/" ++ entry.Name) with
      | some err => .error (.wrap ("read migration " ++ entry.Name ++ ": ") err)
      | none =>
        loadMigrations.collect fs rest (migs ++ [{ name := entry.Name, sql := entry.content }])

/-- The function `loadMigrations`. -/
def loadMigrations (fs : EmbedFS) : Except GoError (List migration) :=
  match fs.readDirErr with
  | some err => .error (.wrap "read migrations directory: " err)
  | none =>
    match loadMigrations.collect fs fs.entries [] with
    | .error err => .error err
    | .ok migs => .ok (sortSlice migs)

/-- The database as the migration engine sees it: `schema` is every object other than the
tracking table, `tracking` the ids in `schema_migrations` in insertion order (`none` while the
table does not exist).  A migration script is arbitrary SQL: it may read and write both. -/
structure MigDB (σ : Type) where
  schema : σ
  tracking : Option (List String)

/-- What `tx.Commit` does: it commits; or it reports a failure and the transaction is aborted;
or it reports a failure although the server has made the transaction durable (the connection is
lost between the server's commit and its answer). -/
inductive CommitOutcome where
  | committed
  | aborted (err : GoError)
  | lost (err : GoError)
deriving DecidableEq, Repr

/-- The behaviour of the database connection during one run of the engine: the failure, if any,
of each call the engine makes (per migration name for the calls inside the loop, per row id for
`rows.Scan`), the effect of a script on the database as its transaction sees it, and the outcome
of a commit. -/
structure Driver (σ : Type) where
  createErr : Option GoError
  queryErr : Option GoError
  scanErr : String → Option GoError
  rowsErr : Option GoError
  beginErr : String → Option GoError
  execScript : String → MigDB σ → Except GoError (MigDB σ)
  insertErr : String → Option GoError
  commit : String → CommitOutcome

/-- A call the engine makes inside the loop, with the name of the migration it is made for. -/
inductive TxEvent where
  | beginTx (name : String)
  | script (name : String)
  | record (name : String)
  | commit (name : String)
  | rollback (name : String)
deriving DecidableEq, Repr

/-- The migration a call is made for. -/
def TxEvent.name : TxEvent → String
  | .beginTx n => n
  | .script n => n
  | .record n => n
  | .commit n => n
  | .rollback n => n

/-- The name of the script a call executes, when the call is the execution of a script. -/
def TxEvent.scriptName : TxEvent → Option String
  | .script n => some n
  | _ => none

/-- The name a call inserts into the tracking table, when the call is that insert. -/
def TxEvent.recordName : TxEvent → Option String
  | .record n => some n
  | _ => none

/-- The outcome of a run: the error returned, the database left behind, and the calls made
inside the loop, oldest first. -/
structure MigRun (σ : Type) where
  err : Option GoError
  db : MigDB σ
  trace : List TxEvent

/-- The error of the database for a statement on a table that does not exist. -/
def relationMissing : GoError :=
  .leaf "ERROR: relation schema_migrations does not exist (SQLSTATE 42P01)"

/-- The error of the database for an insert that repeats a primary key. -/
def duplicateKey : GoError :=
  .leaf "ERROR: duplicate key value violates unique constraint schema_migrations_pkey (SQLSTATE 23505)"

/-- The loop of `loadAppliedMigrations` over the rows, `applied` being the keys set so far. -/
def loadAppliedMigrations.scan {σ : Type} (d : Driver σ) :
    List String → List String → Except GoError (List String)
  | [], applied => .ok applied
  | id :: rest, applied =>
    match d.scanErr id with
    | some err => .error (.wrap "scan migration id: " err)
    | none => loadAppliedMigrations.scan d rest (applied ++ [id])

/-- The function `loadAppliedMigrations`; the map is the list of its keys. -/
def loadAppliedMigrations {σ : Type} (d : Driver σ) (db : MigDB σ) :
    Except GoError (List String) :=
  match d.queryErr with
  | some err => .error (.wrap "query applied migrations: " err)
  | none =>
    match db.tracking with
    | none => .error (.wrap "query applied migrations: " relationMissing)
    | some ids =>
      match loadAppliedMigrations.scan d ids [] with
      | .error err => .error err
      | .ok applied =>
        match d.rowsErr with
        | some err => .error (.wrap "iterate applied migrations: " err)
        | none => .ok applied

/-- The statement `INSERT INTO schema_migrations (id) VALUES ($1)` inside a transaction. -/
def insertTracking {σ : Type} (d : Driver σ) (name : String) (tracking : Option (List String)) :
    Except GoError (Option (List String)) :=
  match d.insertErr name with
  | some err => .error err
  | none =>
    match tracking with
    | none => .error relationMissing
    | some ids => if name ∈ ids then .error duplicateKey else .ok (some (ids ++ [name]))

/-- The four calls of a migration that is applied in full. -/
def txEvents (m : migration) : List TxEvent :=
  [.beginTx m.name, .script m.name, .record m.name, .commit m.name]

/-- A transaction of `sql.Tx`: `base` is the committed database, `work` the database as the
statements of the transaction see it.  The engine is the only client of the database. -/
structure Tx (σ : Type) where
  base : MigDB σ
  work : MigDB σ

/-- The call `db.BeginTx(ctx, nil)` for the migration `name`. -/
def BeginTx {σ : Type} (d : Driver σ) (name : String) (db : MigDB σ) : Except GoError (Tx σ) :=
  match d.beginErr name with
  | some err => .error err
  | none => .ok { base := db, work := db }

/-- The call `tx.ExecContext(ctx, m.sql)`: the script acts on what the transaction sees. -/
def Tx.ExecScript {σ : Type} (d : Driver σ) (sql : String) (tx : Tx σ) : Except GoError (Tx σ) :=
  match d.execScript sql tx.work with
  | .error err => .error err
  | .ok work1 => .ok { tx with work := work1 }

/-- The call `tx.ExecContext(ctx, "INSERT INTO schema_migrations (id) VALUES ($1)", m.name)`:
the insert sees the tracking table as the script has left it. -/
def Tx.ExecRecord {σ : Type} (d : Driver σ) (name : String) (tx : Tx σ) : Except GoError (Tx σ) :=
  match insertTracking d name tx.work.tracking with
  | .error err => .error err
  | .ok tracking1 => .ok { tx with work := { tx.work with tracking := tracking1 } }

/-- The call `tx.Rollback()`, whose error the engine ignores: the committed database stays. -/
def Tx.Rollback {σ : Type} (tx : Tx σ) : MigDB σ :=
  tx.base

/-- The call `tx.Commit()` for the migration `name`: the error and the database it leaves. -/
def Tx.Commit {σ : Type} (d : Driver σ) (name : String) (tx : Tx σ) : Option GoError × MigDB σ :=
  match d.commit name with
  | .committed => (none, tx.work)
  | .aborted err => (some err, tx.base)
  | .lost err => (some err, tx.work)

/-- The body of the loop of `applyMigrations` for a migration that is not yet applied: begin,
execute the script, insert the tracking row, commit, with a rollback after a failed script or
insert. -/
def applyMigrations.step {σ : Type} (d : Driver σ) (m : migration) (db : MigDB σ) :
    Option GoError × MigDB σ × List TxEvent :=
  match BeginTx d m.name db with
  | .error err =>
    (some (.wrap ("begin transaction for migration " ++ m.name ++ ": ") err), db,
      [.beginTx m.name])
  | .ok tx =>
    match tx.ExecScript d m.sql with
    | .error err =>
      (some (.wrap ("execute migration " ++ m.name ++ ": ") err), tx.Rollback,
        [.beginTx m.name, .script m.name, .rollback m.name])
    | .ok tx1 =>
      match tx1.ExecRecord d m.name with
      | .error err =>
        (some (.wrap ("record migration " ++ m.name ++ ": ") err), tx1.Rollback,
          [.beginTx m.name, .script m.name, .record m.name, .rollback m.name])
      | .ok tx2 =>
        match tx2.Commit d m.name with
        | (some err, db1) =>
          (some (.wrap ("commit migration " ++ m.name ++ ": ") err), db1, txEvents m)
        | (none, db1) => (none, db1, txEvents m)

/-- The loop `for _, m := range migrations` of `applyMigrations`. -/
def applyMigrations.loop {σ : Type} (d : Driver σ) (applied : List String) :
    List migration → MigDB σ → List TxEvent → MigRun σ
  | [], db, trace => { err := none, db := db, trace := trace }
  | m :: rest, db, trace =>
    if m.name ∈ applied then applyMigrations.loop d applied rest db trace
    else
      match applyMigrations.step d m db with
      | (some err, db1, events) => { err := some err, db := db1, trace := trace ++ events }
      | (none, db1, events) => applyMigrations.loop d applied rest db1 (trace ++ events)

/-- The statement `CREATE TABLE IF NOT EXISTS schema_migrations (...)`. -/
def createTracking {σ : Type} (db : MigDB σ) : MigDB σ :=
  { db with tracking := some (db.tracking.getD []) }

/-- The function `applyMigrations`. -/
def applyMigrations {σ : Type} (d : Driver σ) (fs : EmbedFS) (db : MigDB σ) : MigRun σ :=
  match d.createErr with
  | some err =>
    { err := some (.wrap "create schema_migrations table: " err), db := db, trace := [] }
  | none =>
    match loadAppliedMigrations d (createTracking db) with
    | .error err => { err := some err, db := createTracking db, trace := [] }
    | .ok applied =>
      match loadMigrations fs with
      | .error err => { err := some err, db := createTracking db, trace := [] }
      | .ok migrations => applyMigrations.loop d applied migrations (createTracking db) []

/-- The migrations of a list that are pending with respect to the applied names. -/
def pendingOf (applied : List String) (migs : List migration) : List migration :=
  migs.filter (fun m => m.name ∉ applied)

/-- The database after the migrations of a list have been applied in full, in order: for each
its script and then its tracking row. -/
def runScripts {σ : Type} (d : Driver σ) : List migration → MigDB σ → Except GoError (MigDB σ)
  | [], db => .ok db
  | m :: rest, db =>
    match d.execScript m.sql db with
    | .error err => .error err
    | .ok db1 => runScripts d rest { db1 with tracking := some (db1.tracking.getD [] ++ [m.name]) }

/-- One of the four calls made for `m` fails on database `db`: begin, the script, the insert
of the tracking row after the script (a fault of the connection, a missing table or a repeated
key), or commit. -/
def StepFails {σ : Type} (d : Driver σ) (m : migration) (db : MigDB σ) : Prop :=
  d.beginErr m.name ≠ none ∨
  (∃ err, d.execScript m.sql db = .error err) ∨
  (∃ db1 err, d.execScript m.sql db = .ok db1 ∧
    insertTracking d m.name db1.tracking = .error err) ∨
  d.commit m.name ≠ .committed

/-- The scripts of a list of migrations do not write the tracking table: whenever one of them
succeeds, `schema_migrations` is as it was before. -/
def ScriptsKeepTracking {σ : Type} (d : Driver σ) (migs : List migration) : Prop :=
  ∀ m ∈ migs, ∀ db db1 : MigDB σ, d.execScript m.sql db = .ok db1 → db1.tracking = db.tracking

/-- A commit that reports a failure has aborted the transaction. -/
def FailedCommitAborts {σ : Type} (d : Driver σ) : Prop :=
  ∀ name err, d.commit name ≠ .lost err

/-- The string `sub` occurs in `s`. -/
def Contains (s sub : String) : Prop :=
  ∃ pre post : String, s = pre ++ sub ++ post

/-- The test of the loop of `loadMigrations`: the entry is kept when it is not a directory and its
name ends in ".sql". -/
def isMigrationFile (e : DirEntry) : Bool :=
  !e.IsDir && HasSuffix e.Name ".sql"

/-- The migration `loadMigrations` builds from a directory entry. -/
def DirEntry.toMigration (e : DirEntry) : migration :=
  { name := e.Name, sql := e.content }

/-- The migrations of the embedded directory, in directory order. -/
def embedded (fs : EmbedFS) : List migration :=
  (fs.entries.filter isMigrationFile).map DirEntry.toMigration

/-- Strictly ascending order of name. -/
def StrictlyAscending (migs : List migration) : Prop :=
  migs.Pairwise (fun a b => goLess a.name b.name = true)

/-- The names of the scripts a run executed, in order of execution. -/
def MigRun.executed {σ : Type} (r : MigRun σ) : List String :=
  r.trace.filterMap TxEvent.scriptName

/-- The names a run sent an insert into the tracking table for, in order. -/
def MigRun.recorded {σ : Type} (r : MigRun σ) : List String :=
  r.trace.filterMap TxEvent.recordName

/-! ## Descriptions the handlers are compared with -/

/-- The checks on a create request in their fixed order: language required, unsupported
language, wpm, accuracy, errors, time, date required.  Each comes with the condition under which
it fails and the message it reports. -/
def historyChecks (req : createHistoryRequest) : List (Bool × String) :=
  [(decide (req.Language = ""), "language is required"),
   (decide (¬ (req.Language = "javascript" ∨ req.Language = "python" ∨ req.Language = "go")),
      "unsupported language"),
   (decide (req.WPM < 0), "wpm must be non-negative"),
   (decide (req.Accuracy < 0 ∨ req.Accuracy > 100), "accuracy must be between 0 and 100"),
   (decide (req.Errors < 0), "errors must be non-negative"),
   (decide (req.Time < 0), "time must be non-negative"),
   (decide (TrimSpace req.Date = ""), "date is required")]

/-- The message of the first check of `historyChecks` that fails, if one does. -/
def firstFailure (req : createHistoryRequest) : Option String :=
  ((historyChecks req).find? (fun c => c.1)).map (fun c => c.2)

/-- The validation invariant of the parameters of a stored entry: language in the enumerated
set, wpm, errors and duration not negative, accuracy within [0, 100]. -/
def ValidParams (p : CreateHistoryParams) : Prop :=
  (p.Language = "javascript" ∨ p.Language = "python" ∨ p.Language = "go") ∧
  0 ≤ p.WPM ∧ 0 ≤ p.Errors ∧ 0 ≤ p.DurationSeconds ∧ 0 ≤ p.Accuracy ∧ p.Accuracy ≤ 100

/-- A time layout whose `Parse` accepts no blank text, as `time.Parse` with `time.RFC3339` does:
that layout starts with the four digits of the year. -/
def RejectsBlank (tl : TimeLayout) : Prop :=
  ∀ s t, tl.Parse s = .ok t → TrimSpace s ≠ ""

/-- No call on the database connection fails. -/
def Reachable (db : SqlDB) : Prop :=
  db.fault = none ∧ db.scanFault = none ∧ db.rowsFault = none

/-! ## Concrete systems used to exercise the model: account deletion -/

/-- An identity provider that deletes on request: 204 when the identity named by the last path
segment exists, 404 when it does not.  Its state is the list of existing identities. -/
def kratosDo (baseURL : String) (req : Request) (p : List String) :
    Except GoError Response × List String :=
  let id := String.mk (req.url.data.drop (baseURL ++ "/identities/").data.length)
  if id ∈ p then (.ok { StatusCode := 204, Status := "204 No Content" }, p.filter (fun x => x ≠ id))
  else (.ok { StatusCode := 404, Status := "404 Not Found" }, p)

/-- An admin client in front of `kratosDo`. -/
def kratosClient : AdminClient (List String) :=
  { baseURL := "http://kratos:4434"
    httpClient := { parseErr := fun _ => none, Do := kratosDo "http://kratos:4434" } }

/-- An admin client whose provider answers every request with status 500. -/
def brokenClient : AdminClient (List String) :=
  { baseURL := "http://kratos:4434"
    httpClient :=
      { parseErr := fun _ => none
        Do := fun _ p => (.ok { StatusCode := 500, Status := "500 Internal Server Error" }, p) } }

/-- An admin client whose transport fails before any response arrives. -/
def unreachableClient : AdminClient (List String) :=
  { baseURL := "http://kratos:4434"
    httpClient :=
      { parseErr := fun _ => none
        Do := fun _ p => (.error (.leaf "dial tcp: connection refused"), p) } }

/-- The history repository as the service's `HistoryCleaner`. -/
def repoCleaner : HistoryCleaner SqlDB :=
  { DeleteByUser := HistoryRepository.DeleteByUser }

/-- A sample row of `practice_history`. -/
def sampleEntry (id userID : String) (completedAt : Time) : HistoryEntry :=
  { ID := id, UserID := userID, Language := "go", WPM := 80, Accuracy := 95, Errors := 2,
    DurationSeconds := 60, CompletedAt := completedAt, CreatedAt := completedAt + 1 }

/-- A reachable database holding two rows of user `u1` and one of user `u2`. -/
def sampleDB : SqlDB :=
  { practice_history := [sampleEntry "1" "u1" 10, sampleEntry "2" "u2" 20, sampleEntry "3" "u1" 30]
    fault := none, scanFault := none, rowsFault := none, idSeq := 4, now := 100, received := [] }

/-- The same database when the connection is lost. -/
def downDB : SqlDB :=
  { sampleDB with fault := some (.leaf "connection refused") }

/-- A world where identities `u1` and `u2` exist. -/
def sampleWorld (db : SqlDB) : World (List String) SqlDB :=
  { idp := ["u1", "u2"], store := db, calls := [] }

/-! ## Concrete systems used to exercise the model: migrations -/

/-- An embedded directory with three scripts, listed out of order, a file that is not a script
and a directory. -/
def sampleFS : EmbedFS :=
  { readDirErr := none
    entries :=
      [{ Name := "002_index.sql", IsDir := false, content := "CREATE INDEX h_user ON h (user_id);" },
       { Name := "001_init.sql", IsDir := false, content := "CREATE TABLE h (user_id TEXT);" },
       { Name := "README.md", IsDir := false, content := "notes" },
       { Name := "003_view.sql", IsDir := false, content := "CREATE VIEW v AS SELECT 1;" },
       { Name := "old.sql", IsDir := true, content := "" }]
    readFileErr := fun _ => none }

/-- A database connection without faults whose schema is the list of the scripts committed. -/
def logDriver : Driver (List String) :=
  { createErr := none, queryErr := none, scanErr := fun _ => none, rowsErr := none
    beginErr := fun _ => none
    execScript := fun sql db => .ok { db with schema := db.schema ++ [sql] }
    insertErr := fun _ => none
    commit := fun _ => .committed }

/-- The connection `logDriver` with a commit that fails, the transaction aborted, for the
migration `002_index.sql`. -/
def commitFailDriver : Driver (List String) :=
  { logDriver with
    commit := fun n => if n = "002_index.sql" then .aborted (.leaf "conn closed") else .committed }

/-- The connection `logDriver` with a commit for `002_index.sql` whose answer is lost after the
server has committed. -/
def lostCommitDriver : Driver (List String) :=
  { logDriver with
    commit := fun n => if n = "002_index.sql" then .lost (.leaf "conn closed") else .committed }

/-- The connection `logDriver` when the database cannot be reached. -/
def downDriver : Driver (List String) :=
  { logDriver with createErr := some (.leaf "connection refused") }

/-- A script that empties the tracking table. -/
def resetScript : String :=
  "DELETE FROM schema_migrations;"

/-- A script that writes the name of a later migration into the tracking table. -/
def hijackScript : String :=
  "INSERT INTO schema_migrations (id) VALUES ($$002_index.sql$$);"

/-- A database connection without faults that executes `resetScript` and `hijackScript` on the
tracking table and records every other script in the schema. -/
def sqlDriver : Driver (List String) :=
  { logDriver with
    execScript := fun sql db =>
      if sql = resetScript then .ok { db with tracking := db.tracking.map (fun _ => []) }
      else if sql = hijackScript then
        .ok { db with tracking := db.tracking.map (fun ids => ids ++ ["002_index.sql"]) }
      else .ok { db with schema := db.schema ++ [sql] } }

/-- An embedded directory whose second script empties the tracking table. -/
def resetFS : EmbedFS :=
  { readDirErr := none
    entries :=
      [{ Name := "001_seed.sql", IsDir := false, content := "CREATE TABLE seed (id INT);" },
       { Name := "002_reset.sql", IsDir := false, content := resetScript }]
    readFileErr := fun _ => none }

/-- An embedded directory whose first script records the name of the second. -/
def hijackFS : EmbedFS :=
  { readDirErr := none
    entries :=
      [{ Name := "001_init.sql", IsDir := false, content := hijackScript },
       { Name := "002_index.sql", IsDir := false, content := "CREATE INDEX h_user ON h (user_id);" }]
    readFileErr := fun _ => none }

/-- The first script of `sampleFS` in order of name. -/
def mig001 : migration :=
  { name := "001_init.sql", sql := "CREATE TABLE h (user_id TEXT);" }

/-- The second script of `sampleFS` in order of name. -/
def mig002 : migration :=
  { name := "002_index.sql", sql := "CREATE INDEX h_user ON h (user_id);" }

/-- The third script of `sampleFS` in order of name. -/
def mig003 : migration :=
  { name := "003_view.sql", sql := "CREATE VIEW v AS SELECT 1;" }

/-- A fresh database: no schema objects and no tracking table. -/
def freshDB : MigDB (List String) :=
  { schema := [], tracking := none }

/-! ## Concrete systems used to exercise the model: history handlers -/

/-- A time layout that reads a fixed sample of RFC 3339 dates. -/
def sampleLayout : TimeLayout :=
  { Parse := fun s =>
      if s = "2024-01-01T00:00:00Z" then .ok 1704067200
      else .error (.leaf ("parsing time " ++ s.quote ++ ": cannot parse"))
    Format := fun t => if t = 1704067200 then "2024-01-01T00:00:00Z" else toString t }

/-- The create request of the spec's scenario. -/
def sampleCreate : createHistoryRequest :=
  { Language := "go", WPM := 80, Accuracy := 95, Errors := 2, Time := 60,
    Date := "2024-01-01T00:00:00Z" }

/-- A request of user `u1` that carries the given limit and create request. -/
def sampleRequest (limit : String) (req : createHistoryRequest) : HttpRequest :=
  { ctxUserID := some "u1"
    query := fun k => if k = "limit" then limit else ""
    body := .ok req }

/-- A reachable database where user `u1` has three rows, stored out of order of completion,
and user `u2` has one. -/
def threeDB : SqlDB :=
  { sampleDB with
    practice_history :=
      [sampleEntry "1" "u1" 20, sampleEntry "2" "u2" 25, sampleEntry "3" "u1" 10,
       sampleEntry "4" "u1" 30]
    idSeq := 5 }

/-! # Theorems -/

/-! ## Account deletion -/

theorem DeleteAccount_of_identity_error {ι δ : Type} (s : Service ι δ) (userID : String)
    (w : World ι δ) (hid : userID ≠ "") (err : GoError)
    (h : (s.adminClient.DeleteIdentity userID w.idp).1 = some err) :
    s.DeleteAccount userID w =
      (some (.wrap "delete identity: " err),
        { w with idp := (s.adminClient.DeleteIdentity userID w.idp).2,
                 calls := w.calls ++ [Call.DeleteIdentity userID] }) := by
  simp [Service.DeleteAccount, hid, Service.callDeleteIdentity, h]

theorem DeleteAccount_of_identity_ok {ι δ : Type} (s : Service ι δ) (userID : String)
    (w : World ι δ) (hid : userID ≠ "")
    (h : (s.adminClient.DeleteIdentity userID w.idp).1 = none) :
    s.DeleteAccount userID w =
      ((match (s.historyRepo.DeleteByUser userID w.store).1 with
        | some err => some (.wrap "delete practice history: " err)
        | none => none),
        { idp := (s.adminClient.DeleteIdentity userID w.idp).2,
          store := (s.historyRepo.DeleteByUser userID w.store).2,
          calls := w.calls ++ [Call.DeleteIdentity userID, Call.DeleteByUser userID] }) := by
  simp only [Service.DeleteAccount, hid, Service.callDeleteIdentity, h, if_false,
    Service.callDeleteByUser]
  cases hr : (s.historyRepo.DeleteByUser userID w.store).1 <;> simp [hr]

/-- C1: for a non-empty identity and any history store, when `AdminClient.DeleteIdentity`
returns an error, `Service.DeleteAccount` returns an error (wrapping it), the only call it makes
on its dependencies is `DeleteIdentity` (so `HistoryCleaner.DeleteByUser` is not invoked), and
the history store, hence every row of that user, is exactly what it was before the call. -/
theorem C1_identity_failure_halts_purge {ι δ : Type} (s : Service ι δ) (userID : String)
    (w : World ι δ) (hid : userID ≠ "")
    (hfail : (s.adminClient.DeleteIdentity userID w.idp).1 ≠ none) :
    (s.DeleteAccount userID w).1 ≠ none ∧
    (∃ err, (s.adminClient.DeleteIdentity userID w.idp).1 = some err ∧
      (s.DeleteAccount userID w).1 = some (.wrap "delete identity: " err)) ∧
    (s.DeleteAccount userID w).2.calls = w.calls ++ [Call.DeleteIdentity userID] ∧
    (∀ u, Call.DeleteByUser u ∉ (s.DeleteAccount userID w).2.calls.drop w.calls.length) ∧
    (s.DeleteAccount userID w).2.store = w.store := by
  obtain ⟨err, herr⟩ := Option.ne_none_iff_exists'.mp hfail
  rw [DeleteAccount_of_identity_error s userID w hid err herr]
  refine ⟨by simp, ⟨err, herr, rfl⟩, rfl, ?_, rfl⟩
  intro u
  simp

/-- C1 at a provider that answers 500: user `u1` keeps both rows and no delete reaches the
database. -/
theorem C1_identity_failure_halts_purge_witness :
    ("u1" ≠ "" ∧
      ((⟨brokenClient, repoCleaner⟩ : Service (List String) SqlDB).adminClient.DeleteIdentity "u1"
        (sampleWorld sampleDB).idp).1 ≠ none) ∧
    ((⟨brokenClient, repoCleaner⟩ : Service (List String) SqlDB).DeleteAccount "u1"
        (sampleWorld sampleDB)).2.store = sampleDB :=
  ⟨⟨by decide, by simp [AdminClient.DeleteIdentity, NewRequestWithContext, brokenClient]⟩,
    (C1_identity_failure_halts_purge ⟨brokenClient, repoCleaner⟩ "u1" (sampleWorld sampleDB)
      (by decide)
      (by simp [AdminClient.DeleteIdentity, NewRequestWithContext, brokenClient])).2.2.2.2⟩

/-- C2: when the request is built and the HTTP exchange yields a response, `DeleteIdentity`
returns nil exactly when the status code is 204 or 404, and for every other status code it
returns an error whose message is "kratos admin api returned " followed by the response status;
when the exchange fails in transport it returns an error that wraps the transport error. -/
theorem C2_delete_identity_response_mapping {ι : Type} (c : AdminClient ι) (identityID : String)
    (p p1 : ι) (out : Except GoError Response)
    (hbuild : c.httpClient.parseErr (c.identityURL identityID) = none)
    (hdo : c.httpClient.Do { method := "DELETE", url := c.identityURL identityID } p = (out, p1)) :
    (∀ resp, out = .ok resp →
      (((c.DeleteIdentity identityID p).1 = none ↔
          (resp.StatusCode = 204 ∨ resp.StatusCode = 404)) ∧
       (¬ (resp.StatusCode = 204 ∨ resp.StatusCode = 404) →
          ∃ e, (c.DeleteIdentity identityID p).1 = some e ∧
            e.Error = "kratos admin api returned " ++ resp.Status))) ∧
    (∀ err, out = .error err →
      ∃ e, (c.DeleteIdentity identityID p).1 = some e ∧ e.Unwrap = some err ∧
        e.Error = "call kratos admin api: " ++ err.Error) := by
  constructor
  · intro resp hout
    subst hout
    by_cases hc : resp.StatusCode = 204 ∨ resp.StatusCode = 404
    · simp [AdminClient.DeleteIdentity, NewRequestWithContext, hbuild, hdo, hc]
    · simp [AdminClient.DeleteIdentity, NewRequestWithContext, hbuild, hdo, hc, GoError.Error]
  · intro err hout
    subst hout
    simp [AdminClient.DeleteIdentity, NewRequestWithContext, hbuild, hdo, GoError.Error,
      GoError.Unwrap]

/-- C2 at a provider that answers 500 and at a transport that refuses the connection. -/
theorem C2_delete_identity_response_mapping_witness :
    (∃ e, (brokenClient.DeleteIdentity "u1" ["u1"]).1 = some e ∧
      e.Error = "kratos admin api returned 500 Internal Server Error") ∧
    (∃ e, (unreachableClient.DeleteIdentity "u1" ["u1"]).1 = some e ∧
      e.Unwrap = some (.leaf "dial tcp: connection refused") ∧
      e.Error = "call kratos admin api: " ++ (GoError.leaf "dial tcp: connection refused").Error) :=
  ⟨((C2_delete_identity_response_mapping brokenClient "u1" ["u1"] ["u1"]
        (.ok { StatusCode := 500, Status := "500 Internal Server Error" }) rfl rfl).1
        { StatusCode := 500, Status := "500 Internal Server Error" } rfl).2 (by decide),
    (C2_delete_identity_response_mapping unreachableClient "u1" ["u1"] ["u1"]
        (.error (.leaf "dial tcp: connection refused")) rfl rfl).2
        (.leaf "dial tcp: connection refused") rfl⟩

theorem DeleteIdentity_of_answersIdempotently (c : AdminClient (List String)) (userID : String)
    (hc : AnswersIdempotently c userID) (p : List String) :
    c.DeleteIdentity userID p = (none, p.filter (fun x => x ≠ userID)) := by
  obtain ⟨hbuild, h204, h404⟩ := hc
  by_cases hm : userID ∈ p
  · obtain ⟨st, hst⟩ := h204 p hm
    simp [AdminClient.DeleteIdentity, NewRequestWithContext, hbuild, hst]
  · obtain ⟨st, hst⟩ := h404 p hm
    have hf : p.filter (fun x => x ≠ userID) = p := by
      apply List.filter_eq_self.mpr
      intro a ha
      have : a ≠ userID := fun h => hm (h ▸ ha)
      simpa using this
    rw [hf]
    simp [AdminClient.DeleteIdentity, NewRequestWithContext, hbuild, hst]

theorem kratosClient_answersIdempotently (userID : String) :
    AnswersIdempotently kratosClient userID := by
  have hid : String.mk (List.drop ("http://kratos:4434" ++ "/identities/").data.length
      (kratosClient.identityURL userID).data) = userID := by
    simp [AdminClient.identityURL, kratosClient]
  refine ⟨rfl, ?_, ?_⟩
  · intro p hp
    refine ⟨"204 No Content", ?_⟩
    simp only [kratosClient, kratosDo] at hid ⊢
    simp only [hid, hp, if_true]
  · intro p hp
    refine ⟨"404 Not Found", ?_⟩
    simp only [kratosClient, kratosDo] at hid ⊢
    simp only [hid, hp, if_false]

/-- C3: for a non-empty identity, a provider that answers 204 (removing the identity) when it
exists and 404 when it is absent, and a reachable history database, two account deletions in
sequence both return nil, and after the second the provider state and the history rows equal
those after the first: the identity is absent, no row of that identity is left, and the rows of
all other users are the ones of the initial table. -/
theorem C3_delete_account_twice (c : AdminClient (List String)) (userID : String)
    (w : World (List String) SqlDB) (hid : userID ≠ "")
    (hprov : AnswersIdempotently c userID) (hdb : w.store.fault = none) :
    ((⟨c, repoCleaner⟩ : Service (List String) SqlDB).DeleteAccount userID w).1 = none ∧
    ((⟨c, repoCleaner⟩ : Service (List String) SqlDB).DeleteAccount userID
      ((⟨c, repoCleaner⟩ : Service (List String) SqlDB).DeleteAccount userID w).2).1 = none ∧
    ((⟨c, repoCleaner⟩ : Service (List String) SqlDB).DeleteAccount userID
      ((⟨c, repoCleaner⟩ : Service (List String) SqlDB).DeleteAccount userID w).2).2.idp =
      ((⟨c, repoCleaner⟩ : Service (List String) SqlDB).DeleteAccount userID w).2.idp ∧
    ((⟨c, repoCleaner⟩ : Service (List String) SqlDB).DeleteAccount userID
      ((⟨c, repoCleaner⟩ : Service (List String) SqlDB).DeleteAccount userID w).2).2.store.practice_history =
      ((⟨c, repoCleaner⟩ : Service (List String) SqlDB).DeleteAccount userID w).2.store.practice_history ∧
    userID ∉ ((⟨c, repoCleaner⟩ : Service (List String) SqlDB).DeleteAccount userID
      ((⟨c, repoCleaner⟩ : Service (List String) SqlDB).DeleteAccount userID w).2).2.idp ∧
    (∀ e ∈ ((⟨c, repoCleaner⟩ : Service (List String) SqlDB).DeleteAccount userID
      ((⟨c, repoCleaner⟩ : Service (List String) SqlDB).DeleteAccount userID w).2).2.store.practice_history,
      e.UserID ≠ userID) ∧
    ((⟨c, repoCleaner⟩ : Service (List String) SqlDB).DeleteAccount userID
      ((⟨c, repoCleaner⟩ : Service (List String) SqlDB).DeleteAccount userID w).2).2.store.practice_history
      = w.store.practice_history.filter (fun e => e.UserID ≠ userID) := by
  have h1 : (⟨c, repoCleaner⟩ : Service (List String) SqlDB).DeleteAccount userID w =
      (none, { idp := w.idp.filter (fun x => x ≠ userID)
               store := { w.store with
                  received := w.store.received ++ [Stmt.delete userID]
                  practice_history := w.store.practice_history.filter (fun e => e.UserID ≠ userID) }
               calls := w.calls ++ [Call.DeleteIdentity userID, Call.DeleteByUser userID] }) := by
    rw [DeleteAccount_of_identity_ok _ userID w hid
      (by simp [DeleteIdentity_of_answersIdempotently c userID hprov])]
    simp [DeleteIdentity_of_answersIdempotently c userID hprov, repoCleaner,
      HistoryRepository.DeleteByUser, hdb]
  rw [h1]
  rw [DeleteAccount_of_identity_ok _ userID _ hid
      (by simp [DeleteIdentity_of_answersIdempotently c userID hprov])]
  simp [DeleteIdentity_of_answersIdempotently c userID hprov, repoCleaner,
      HistoryRepository.DeleteByUser, hdb]

/-- C3 at the provider `kratosClient` and the sample database: after two deletions of `u1` only
the row of `u2` is left. -/
theorem C3_delete_account_twice_witness :
    ("u1" ≠ "" ∧ AnswersIdempotently kratosClient "u1" ∧ (sampleWorld sampleDB).store.fault = none) ∧
    ((⟨kratosClient, repoCleaner⟩ : Service (List String) SqlDB).DeleteAccount "u1"
      ((⟨kratosClient, repoCleaner⟩ : Service (List String) SqlDB).DeleteAccount "u1"
        (sampleWorld sampleDB)).2).2.store.practice_history = [sampleEntry "2" "u2" 20] :=
  ⟨⟨by decide, kratosClient_answersIdempotently "u1", rfl⟩,
    (C3_delete_account_twice kratosClient "u1" (sampleWorld sampleDB) (by decide)
      (kratosClient_answersIdempotently "u1") rfl).2.2.2.2.2.2.trans (by decide)⟩

/-- C4: `DeleteAccount` returns nil exactly when the identity is non-empty, `DeleteIdentity`
returns nil and `DeleteByUser` returns nil; the calls it makes are none for an empty identity,
`DeleteIdentity` alone when that fails, and otherwise `DeleteIdentity` followed by
`DeleteByUser`; and when `DeleteIdentity` succeeds and `DeleteByUser` fails it returns an error
while the identity provider is left in the state the delete put it in. -/
theorem C4_delete_account_success_iff {ι δ : Type} (s : Service ι δ) (userID : String)
    (w : World ι δ) :
    ((s.DeleteAccount userID w).1 = none ↔
      (userID ≠ "" ∧ (s.adminClient.DeleteIdentity userID w.idp).1 = none ∧
        (s.historyRepo.DeleteByUser userID w.store).1 = none)) ∧
    (s.DeleteAccount userID w).2.calls = w.calls ++
      (if userID = "" then []
       else if (s.adminClient.DeleteIdentity userID w.idp).1 = none then
         [Call.DeleteIdentity userID, Call.DeleteByUser userID]
       else [Call.DeleteIdentity userID]) ∧
    (userID ≠ "" → (s.adminClient.DeleteIdentity userID w.idp).1 = none →
      (s.historyRepo.DeleteByUser userID w.store).1 ≠ none →
      (∃ err, (s.historyRepo.DeleteByUser userID w.store).1 = some err ∧
        (s.DeleteAccount userID w).1 = some (.wrap "delete practice history: " err)) ∧
      (s.DeleteAccount userID w).2.idp = (s.adminClient.DeleteIdentity userID w.idp).2) := by
  by_cases hid : userID = ""
  · simp [Service.DeleteAccount, hid]
  · cases hdi : (s.adminClient.DeleteIdentity userID w.idp).1 with
    | some err =>
      rw [DeleteAccount_of_identity_error s userID w hid err hdi]
      simp [hid]
    | none =>
      rw [DeleteAccount_of_identity_ok s userID w hid hdi]
      cases hdb : (s.historyRepo.DeleteByUser userID w.store).1 <;> simp [hid]

/-- C4 at a provider that deletes `u1` and a database that is down: the deletion fails after
the identity is gone, and the rows of `u1` are still there. -/
theorem C4_delete_account_success_iff_witness :
    ("u1" ≠ "" ∧
      ((⟨kratosClient, repoCleaner⟩ : Service (List String) SqlDB).adminClient.DeleteIdentity "u1"
        (sampleWorld downDB).idp).1 = none ∧
      ((⟨kratosClient, repoCleaner⟩ : Service (List String) SqlDB).historyRepo.DeleteByUser "u1"
        (sampleWorld downDB).store).1 ≠ none) ∧
    ((⟨kratosClient, repoCleaner⟩ : Service (List String) SqlDB).DeleteAccount "u1"
        (sampleWorld downDB)).2.idp = ["u2"] ∧
    ((⟨kratosClient, repoCleaner⟩ : Service (List String) SqlDB).DeleteAccount "u1"
        (sampleWorld downDB)).2.store.practice_history = sampleDB.practice_history :=
  have hdi : ((⟨kratosClient, repoCleaner⟩ : Service (List String) SqlDB).adminClient.DeleteIdentity
      "u1" (sampleWorld downDB).idp) = (none, ["u2"]) := by
    rw [DeleteIdentity_of_answersIdempotently kratosClient "u1"
      (kratosClient_answersIdempotently "u1")]
    decide
  have hdb : ((⟨kratosClient, repoCleaner⟩ : Service (List String) SqlDB).historyRepo.DeleteByUser
      "u1" (sampleWorld downDB).store).1 ≠ none := by
    simp [repoCleaner, HistoryRepository.DeleteByUser, sampleWorld, downDB]
  ⟨⟨by decide, by rw [hdi], hdb⟩,
    ((C4_delete_account_success_iff ⟨kratosClient, repoCleaner⟩ "u1" (sampleWorld downDB)).2.2
      (by decide) (by rw [hdi]) hdb).2.trans (by rw [hdi]),
    by
      rw [DeleteAccount_of_identity_ok _ "u1" _ (by decide) (by rw [hdi])]
      simp [repoCleaner, HistoryRepository.DeleteByUser, sampleWorld, downDB]⟩

/-! ## Migration engine -/

theorem scan_eq_ok {σ : Type} (d : Driver σ) (ids acc applied : List String)
    (h : loadAppliedMigrations.scan d ids acc = .ok applied) : applied = acc ++ ids := by
  induction ids generalizing acc with
  | nil =>
    simp only [loadAppliedMigrations.scan, Except.ok.injEq] at h
    simp [h]
  | cons id rest ih =>
    simp only [loadAppliedMigrations.scan] at h
    cases hs : d.scanErr id with
    | some err => simp [hs] at h
    | none =>
      simp only [hs] at h
      rw [ih _ h]
      simp

theorem loadAppliedMigrations_eq_ok {σ : Type} (d : Driver σ) (db : MigDB σ)
    (applied : List String) (h : loadAppliedMigrations d db = .ok applied) :
    db.tracking = some applied ∧ d.queryErr = none ∧ d.rowsErr = none ∧
      ∀ id ∈ applied, d.scanErr id = none := by
  unfold loadAppliedMigrations at h
  cases hq : d.queryErr with
  | some err => simp [hq] at h
  | none =>
    simp only [hq] at h
    cases ht : db.tracking with
    | none => simp [ht] at h
    | some ids =>
      simp only [ht] at h
      cases hsc : loadAppliedMigrations.scan d ids [] with
      | error err => simp [hsc] at h
      | ok ap =>
        simp only [hsc] at h
        cases hr : d.rowsErr with
        | some err => simp [hr] at h
        | none =>
          simp only [hr, Except.ok.injEq] at h
          have hap := scan_eq_ok d ids [] ap hsc
          simp only [List.nil_append] at hap
          subst h
          subst hap
          refine ⟨rfl, rfl, rfl, ?_⟩
          have key : ∀ (l acc r : List String), loadAppliedMigrations.scan d l acc = .ok r →
              ∀ id ∈ l, d.scanErr id = none := by
            intro l
            induction l with
            | nil => intro _ _ _ id hid; simp at hid
            | cons a rest ih =>
              intro acc r hr id hid
              simp only [loadAppliedMigrations.scan] at hr
              cases hs : d.scanErr a with
              | some err => simp [hs] at hr
              | none =>
                simp only [hs] at hr
                rcases List.mem_cons.mp hid with h1 | h1
                · rw [h1]; exact hs
                · exact ih _ _ hr id h1
          exact key ap [] ap hsc

theorem contains_wrap (kind name : String) (err : GoError) :
    Contains (GoError.wrap (kind ++ name ++ ": ") err).Error name :=
  ⟨kind, ": " ++ err.Error, by simp [GoError.Error, String.append_assoc]⟩

theorem step_eq {σ : Type} (d : Driver σ) (m : migration) (db : MigDB σ) :
    applyMigrations.step d m db =
      match d.beginErr m.name with
      | some err =>
        (some (.wrap ("begin transaction for migration " ++ m.name ++ ": ") err), db,
          [.beginTx m.name])
      | none =>
        match d.execScript m.sql db with
        | .error err =>
          (some (.wrap ("execute migration " ++ m.name ++ ": ") err), db,
            [.beginTx m.name, .script m.name, .rollback m.name])
        | .ok db1 =>
          match insertTracking d m.name db1.tracking with
          | .error err =>
            (some (.wrap ("record migration " ++ m.name ++ ": ") err), db,
              [.beginTx m.name, .script m.name, .record m.name, .rollback m.name])
          | .ok tracking1 =>
            match d.commit m.name with
            | .committed => (none, { db1 with tracking := tracking1 }, txEvents m)
            | .aborted err =>
              (some (.wrap ("commit migration " ++ m.name ++ ": ") err), db, txEvents m)
            | .lost err =>
              (some (.wrap ("commit migration " ++ m.name ++ ": ") err),
                { db1 with tracking := tracking1 }, txEvents m) := by
  unfold applyMigrations.step BeginTx
  cases d.beginErr m.name with
  | some err => rfl
  | none =>
    simp only [Tx.ExecScript]
    cases d.execScript m.sql db with
    | error err => rfl
    | ok db1 =>
      simp only [Tx.ExecRecord]
      cases insertTracking d m.name db1.tracking with
      | error err => rfl
      | ok tracking1 =>
        simp only [Tx.Commit]
        cases d.commit m.name <;> rfl

theorem insertTracking_eq_ok {σ : Type} (d : Driver σ) (name : String)
    (tracking tracking1 : Option (List String))
    (h : insertTracking d name tracking = .ok tracking1) :
    ∃ t, tracking = some t ∧ name ∉ t ∧ tracking1 = some (t ++ [name]) := by
  unfold insertTracking at h
  cases hie : d.insertErr name with
  | some err => simp [hie] at h
  | none =>
    cases ht : tracking with
    | none => simp [hie, ht] at h
    | some t =>
      by_cases hmem : name ∈ t
      · simp [hie, ht, hmem] at h
      · simp only [hie, ht, hmem, if_false, Except.ok.injEq] at h
        exact ⟨t, rfl, hmem, h.symm⟩

theorem step_events_name {σ : Type} (d : Driver σ) (m : migration) (db : MigDB σ) :
    ∀ ev ∈ (applyMigrations.step d m db).2.2, ev.name = m.name := by
  rw [step_eq]
  cases d.beginErr m.name with
  | some err => simp [TxEvent.name]
  | none =>
    dsimp only
    cases d.execScript m.sql db with
    | error err => simp [TxEvent.name]
    | ok db1 =>
      dsimp only
      cases insertTracking d m.name db1.tracking with
      | error err => simp [TxEvent.name]
      | ok t1 =>
        dsimp only
        cases d.commit m.name <;> simp [TxEvent.name, txEvents]

theorem step_of_fails {σ : Type} (d : Driver σ) (m : migration) (db : MigDB σ)
    (h : StepFails d m db) :
    ∃ e, (applyMigrations.step d m db).1 = some e ∧ Contains e.Error m.name ∧
      (FailedCommitAborts d → (applyMigrations.step d m db).2.1 = db) := by
  rw [step_eq]
  cases hb : d.beginErr m.name with
  | some err => exact ⟨_, rfl, contains_wrap _ _ _, fun _ => rfl⟩
  | none =>
    simp only
    cases hx : d.execScript m.sql db with
    | error err => exact ⟨_, rfl, contains_wrap _ _ _, fun _ => rfl⟩
    | ok db1 =>
      simp only
      cases hi : insertTracking d m.name db1.tracking with
      | error err => exact ⟨_, rfl, contains_wrap _ _ _, fun _ => rfl⟩
      | ok t1 =>
        simp only
        cases hc : d.commit m.name with
        | aborted err => exact ⟨_, rfl, contains_wrap _ _ _, fun _ => rfl⟩
        | lost err =>
          exact ⟨_, rfl, contains_wrap _ _ _, fun hno => absurd hc (hno m.name err)⟩
        | committed =>
          exfalso
          rcases h with h | ⟨err, h⟩ | ⟨db2, err, h1, h2⟩ | h
          · exact h hb
          · rw [hx] at h; cases h
          · rw [hx] at h1
            cases h1
            rw [hi] at h2
            cases h2
          · exact h hc

theorem step_of_ok {σ : Type} (d : Driver σ) (m : migration) (db : MigDB σ)
    (h : (applyMigrations.step d m db).1 = none) :
    ¬ StepFails d m db ∧
    ∃ db1 t, d.execScript m.sql db = .ok db1 ∧ db1.tracking = some t ∧ m.name ∉ t ∧
      applyMigrations.step d m db =
        (none, { db1 with tracking := some (t ++ [m.name]) }, txEvents m) := by
  constructor
  · intro hf
    obtain ⟨e, he, _⟩ := step_of_fails d m db hf
    rw [he] at h
    cases h
  · rw [step_eq] at h ⊢
    cases hb : d.beginErr m.name with
    | some err => simp [hb] at h
    | none =>
      simp only [hb] at h ⊢
      cases hx : d.execScript m.sql db with
      | error err => simp [hx] at h
      | ok db1 =>
        simp only [hx] at h ⊢
        cases hi : insertTracking d m.name db1.tracking with
        | error err => simp [hi] at h
        | ok t1 =>
          simp only [hi] at h ⊢
          obtain ⟨t, ht, hmem, ht1⟩ := insertTracking_eq_ok d m.name _ _ hi
          cases hc : d.commit m.name with
          | aborted err => simp [hc] at h
          | lost err => simp [hc] at h
          | committed => exact ⟨db1, t, rfl, ht, hmem, by simp [ht1]⟩

theorem step_fails_iff {σ : Type} (d : Driver σ) (m : migration) (db : MigDB σ) :
    StepFails d m db ↔ (applyMigrations.step d m db).1 ≠ none := by
  constructor
  · intro h
    obtain ⟨e, he, _⟩ := step_of_fails d m db h
    simp [he]
  · intro h
    by_contra hn
    apply h
    rw [step_eq]
    unfold StepFails at hn
    push_neg at hn
    obtain ⟨hb, hx, hi, hc⟩ := hn
    cases hx1 : d.execScript m.sql db with
    | error err => exact absurd hx1 (hx err)
    | ok db1 =>
      cases hi1 : insertTracking d m.name db1.tracking with
      | error err => exact absurd hi1 (hi db1 err hx1)
      | ok t1 => simp [hb, hc, hi1]

theorem step_durable_or_discarded {σ : Type} (d : Driver σ) (m : migration) (db : MigDB σ) :
    (applyMigrations.step d m db).2.1 = db ∨
    ∃ db1 t, d.execScript m.sql db = .ok db1 ∧ db1.tracking = some t ∧ m.name ∉ t ∧
      (applyMigrations.step d m db).2.1 = { db1 with tracking := some (t ++ [m.name]) } := by
  rw [step_eq]
  cases hb : d.beginErr m.name with
  | some err => exact Or.inl rfl
  | none =>
    simp only
    cases hx : d.execScript m.sql db with
    | error err => exact Or.inl rfl
    | ok db1 =>
      simp only
      cases hi : insertTracking d m.name db1.tracking with
      | error err => exact Or.inl rfl
      | ok t1 =>
        simp only
        obtain ⟨t, ht, hmem, ht1⟩ := insertTracking_eq_ok d m.name _ _ hi
        cases hc : d.commit m.name with
        | aborted err => exact Or.inl rfl
        | lost err => exact Or.inr ⟨db1, t, rfl, ht, hmem, by simp [ht1]⟩
        | committed => exact Or.inr ⟨db1, t, rfl, ht, hmem, by simp [ht1]⟩

theorem loop_all_applied {σ : Type} (d : Driver σ) (applied : List String)
    (xs : List migration) (db : MigDB σ) (tr : List TxEvent)
    (h : ∀ m ∈ xs, m.name ∈ applied) :
    applyMigrations.loop d applied xs db tr = { err := none, db := db, trace := tr } := by
  induction xs with
  | nil => rfl
  | cons m rest ih =>
    have hm : m.name ∈ applied := h m (List.mem_cons_self _ _)
    simp only [applyMigrations.loop, hm, if_true]
    exact ih (fun x hx => h x (List.mem_cons_of_mem _ hx))

theorem loop_append_ok {σ : Type} (d : Driver σ) (applied : List String)
    (xs ys : List migration) (db : MigDB σ) (tr : List TxEvent)
    (h : (applyMigrations.loop d applied xs db tr).err = none) :
    applyMigrations.loop d applied (xs ++ ys) db tr =
      applyMigrations.loop d applied ys (applyMigrations.loop d applied xs db tr).db
        (applyMigrations.loop d applied xs db tr).trace := by
  induction xs generalizing db tr with
  | nil => rfl
  | cons m rest ih =>
    simp only [List.cons_append, applyMigrations.loop] at h ⊢
    by_cases hm : m.name ∈ applied
    · simp only [hm, if_true] at h ⊢
      exact ih db tr h
    · simp only [hm, if_false] at h ⊢
      rcases hs : applyMigrations.step d m db with ⟨e, db1, events⟩
      rw [hs] at h
      cases e with
      | some err => simp at h
      | none =>
        simp only at h ⊢
        exact ih db1 (tr ++ events) h

theorem filterMap_scriptName_txEvents (l : List migration) :
    (l.flatMap txEvents).filterMap TxEvent.scriptName = l.map migration.name := by
  induction l with
  | nil => rfl
  | cons m rest ih =>
    simp only [List.flatMap_cons, List.filterMap_append, ih, List.map_cons]
    simp [txEvents, TxEvent.scriptName, List.filterMap_cons]

theorem filterMap_recordName_txEvents (l : List migration) :
    (l.flatMap txEvents).filterMap TxEvent.recordName = l.map migration.name := by
  induction l with
  | nil => rfl
  | cons m rest ih =>
    simp only [List.flatMap_cons, List.filterMap_append, ih, List.map_cons]
    simp [txEvents, TxEvent.recordName, List.filterMap_cons]

theorem loop_trace_of_ok {σ : Type} (d : Driver σ) (applied : List String)
    (xs : List migration) (db : MigDB σ) (tr : List TxEvent)
    (h : (applyMigrations.loop d applied xs db tr).err = none) :
    (applyMigrations.loop d applied xs db tr).trace =
      tr ++ (pendingOf applied xs).flatMap txEvents := by
  induction xs generalizing db tr with
  | nil => simp [applyMigrations.loop, pendingOf]
  | cons m rest ih =>
    simp only [applyMigrations.loop] at h ⊢
    by_cases hm : m.name ∈ applied
    · simp only [hm, if_true] at h ⊢
      have hp : pendingOf applied (m :: rest) = pendingOf applied rest := by
        simp [pendingOf, List.filter_cons, hm]
      rw [hp]
      exact ih db tr h
    · simp only [hm, if_false] at h ⊢
      have hp : pendingOf applied (m :: rest) = m :: pendingOf applied rest := by
        simp [pendingOf, List.filter_cons, hm]
      rw [hp]
      cases hs1 : (applyMigrations.step d m db).1 with
      | some err =>
        rcases hs : applyMigrations.step d m db with ⟨e, db1, events⟩
        rw [hs] at hs1 h
        simp only at hs1
        subst hs1
        simp at h
      | none =>
        obtain ⟨_, db1, t, _, _, _, hs⟩ := step_of_ok d m db hs1
        rw [hs] at h ⊢
        simp only at h ⊢
        rw [ih _ _ h]
        simp

theorem ScriptsKeepTracking.tail {σ : Type} {d : Driver σ} {m : migration}
    {rest : List migration} (h : ScriptsKeepTracking d (m :: rest)) :
    ScriptsKeepTracking d rest :=
  fun x hx => h x (List.mem_cons_of_mem _ hx)

theorem loop_of_ok {σ : Type} (d : Driver σ) (applied : List String)
    (xs : List migration) (db : MigDB σ) (tr : List TxEvent) (t : List String)
    (hk : ScriptsKeepTracking d xs) (ht : db.tracking = some t)
    (h : (applyMigrations.loop d applied xs db tr).err = none) :
    (applyMigrations.loop d applied xs db tr).db.tracking =
        some (t ++ (pendingOf applied xs).map migration.name) ∧
    runScripts d (pendingOf applied xs) db = .ok (applyMigrations.loop d applied xs db tr).db ∧
    (∀ m ∈ pendingOf applied xs, m.name ∉ t) ∧
    ((pendingOf applied xs).map migration.name).Nodup := by
  induction xs generalizing db tr t with
  | nil => simp [applyMigrations.loop, pendingOf, runScripts, ht]
  | cons m rest ih =>
    simp only [applyMigrations.loop] at h ⊢
    by_cases hm : m.name ∈ applied
    · simp only [hm, if_true] at h ⊢
      have hp : pendingOf applied (m :: rest) = pendingOf applied rest := by
        simp [pendingOf, List.filter_cons, hm]
      rw [hp]
      exact ih db tr t hk.tail ht h
    · simp only [hm, if_false] at h ⊢
      have hp : pendingOf applied (m :: rest) = m :: pendingOf applied rest := by
        simp [pendingOf, List.filter_cons, hm]
      rw [hp]
      cases hs1 : (applyMigrations.step d m db).1 with
      | some err =>
        rcases hs : applyMigrations.step d m db with ⟨e, db1, events⟩
        rw [hs] at hs1 h
        simp only at hs1
        subst hs1
        simp at h
      | none =>
        obtain ⟨_, db1, t0, hx, ht0, hmem, hs⟩ := step_of_ok d m db hs1
        have hkeep := hk m (List.mem_cons_self _ _) db db1 hx
        rw [ht0, ht] at hkeep
        cases hkeep
        rw [hs] at h ⊢
        simp only at h ⊢
        obtain ⟨h1, h2, h4, h5⟩ :=
          ih { db1 with tracking := some (t ++ [m.name]) } (tr ++ txEvents m)
            (t ++ [m.name]) hk.tail rfl h
        refine ⟨?_, ?_, ?_, ?_⟩
        · rw [h1]; simp
        · simp only [runScripts, hx, ht0, Option.getD_some]
          exact h2
        · intro x hx1
          rcases List.mem_cons.mp hx1 with hx2 | hx2
          · rw [hx2]; exact hmem
          · intro hxt
            exact h4 x hx2 (List.mem_append_left _ hxt)
        · rw [List.map_cons, List.nodup_cons]
          refine ⟨?_, h5⟩
          intro hin
          obtain ⟨x, hx1, hx2⟩ := List.mem_map.mp hin
          exact h4 x hx1 (by rw [hx2]; simp)

theorem loop_committed {σ : Type} (d : Driver σ) (applied : List String)
    (xs : List migration) (db : MigDB σ) (tr : List TxEvent) (t : List String)
    (hk : ScriptsKeepTracking d xs) (ht : db.tracking = some t) :
    ∃ done, done <+: pendingOf applied xs ∧
      (applyMigrations.loop d applied xs db tr).db.tracking =
        some (t ++ done.map migration.name) ∧
      runScripts d done db = .ok (applyMigrations.loop d applied xs db tr).db := by
  induction xs generalizing db tr t with
  | nil => exact ⟨[], by simp [pendingOf], by simp [applyMigrations.loop, ht], rfl⟩
  | cons m rest ih =>
    simp only [applyMigrations.loop]
    by_cases hm : m.name ∈ applied
    · simp only [hm, if_true]
      have hp : pendingOf applied (m :: rest) = pendingOf applied rest := by
        simp [pendingOf, List.filter_cons, hm]
      rw [hp]
      exact ih db tr t hk.tail ht
    · simp only [hm, if_false]
      have hp : pendingOf applied (m :: rest) = m :: pendingOf applied rest := by
        simp [pendingOf, List.filter_cons, hm]
      rw [hp]
      cases hs1 : (applyMigrations.step d m db).1 with
      | some err =>
        have hdd := step_durable_or_discarded d m db
        rcases hs : applyMigrations.step d m db with ⟨e1, db1, events⟩
        rw [hs] at hs1 hdd
        simp only at hs1 hdd
        subst hs1
        simp only
        rcases hdd with hdd | ⟨db2, t0, hx, ht0, hmem, hdd⟩
        · subst hdd
          exact ⟨[], List.nil_prefix, by simp [ht], rfl⟩
        · have hkeep := hk m (List.mem_cons_self _ _) db db2 hx
          rw [ht0, ht] at hkeep
          cases hkeep
          subst hdd
          refine ⟨[m], ?_, by simp, ?_⟩
          · exact (List.prefix_cons_inj m).mpr List.nil_prefix
          · simp [runScripts, hx, ht0]
      | none =>
        obtain ⟨_, db1, t0, hx, ht0, hmem, hs⟩ := step_of_ok d m db hs1
        have hkeep := hk m (List.mem_cons_self _ _) db db1 hx
        rw [ht0, ht] at hkeep
        cases hkeep
        rw [hs]
        simp only
        obtain ⟨done, hd1, hd2, hd3⟩ :=
          ih { db1 with tracking := some (t ++ [m.name]) } (tr ++ txEvents m)
            (t ++ [m.name]) hk.tail rfl
        refine ⟨m :: done, ?_, ?_, ?_⟩
        · exact (List.prefix_cons_inj m).mpr hd1
        · rw [hd2]; simp
        · simp only [runScripts, hx, ht0, Option.getD_some]
          exact hd3

/-! ## Order of migration names -/

theorem lexLess_cons (a b : Char) (as bs : List Char) :
    lexLess (a :: as) (b :: bs) = true ↔ a < b ∨ (a = b ∧ lexLess as bs = true) := by
  simp only [lexLess]
  rcases lt_trichotomy a b with h | h | h
  · simp [h]
  · subst h; simp
  · simp [h, not_lt_of_lt h, ne_of_gt h]

theorem lexLess_irrefl (a : List Char) : lexLess a a = false := by
  induction a with
  | nil => rfl
  | cons x xs ih => simp [lexLess, ih]

theorem lexLess_trans (a b c : List Char) (h1 : lexLess a b = true) (h2 : lexLess b c = true) :
    lexLess a c = true := by
  induction a generalizing b c with
  | nil =>
    cases c with
    | nil => cases b <;> simp [lexLess] at h2
    | cons z zs => rfl
  | cons x xs ih =>
    cases b with
    | nil => simp [lexLess] at h1
    | cons y ys =>
      cases c with
      | nil => simp [lexLess] at h2
      | cons z zs =>
        rw [lexLess_cons] at h1 h2 ⊢
        rcases h1 with h1 | ⟨h1, g1⟩
        · rcases h2 with h2 | ⟨h2, _⟩
          · exact Or.inl (lt_trans h1 h2)
          · exact Or.inl (h2 ▸ h1)
        · rcases h2 with h2 | ⟨h2, g2⟩
          · exact Or.inl (h1 ▸ h2)
          · exact Or.inr ⟨h1.trans h2, ih ys zs g1 g2⟩

theorem lexLess_trichotomy (a b : List Char) (h1 : lexLess a b = false)
    (h2 : lexLess b a = false) : a = b := by
  induction a generalizing b with
  | nil =>
    cases b with
    | nil => rfl
    | cons y ys => simp [lexLess] at h1
  | cons x xs ih =>
    cases b with
    | nil => simp [lexLess] at h2
    | cons y ys =>
      have g1 := (not_congr (lexLess_cons x y xs ys)).mp (by simp [h1])
      have g2 := (not_congr (lexLess_cons y x ys xs)).mp (by simp [h2])
      push_neg at g1 g2
      have hxy : x = y := le_antisymm g2.1 g1.1
      subst hxy
      have e1 : lexLess xs ys = false := by simpa using g1.2 rfl
      have e2 : lexLess ys xs = false := by simpa using g2.2 rfl
      rw [ih ys e1 e2]

theorem nameLE_total (a b : migration) : nameLE a b ∨ nameLE b a := by
  unfold nameLE goLess
  cases h : lexLess b.name.data a.name.data with
  | false => exact Or.inl rfl
  | true =>
    right
    cases hb : lexLess a.name.data b.name.data with
    | false => rfl
    | true =>
      have := lexLess_trans _ _ _ h hb
      rw [lexLess_irrefl] at this
      cases this

theorem nameLE_trans (a b c : migration) (h1 : nameLE a b) (h2 : nameLE b c) : nameLE a c := by
  unfold nameLE goLess at *
  cases h : lexLess c.name.data a.name.data with
  | false => rfl
  | true =>
    exfalso
    cases hab : lexLess a.name.data b.name.data with
    | false =>
      have e := lexLess_trichotomy _ _ hab h1
      rw [e] at h
      rw [h] at h2
      cases h2
    | true =>
      have := lexLess_trans _ _ _ h hab
      rw [this] at h2
      cases h2

theorem sortSlice_perm (l : List migration) : (sortSlice l).Perm l :=
  List.perm_insertionSort nameLE l

theorem sortSlice_sorted (l : List migration) : (sortSlice l).Pairwise nameLE := by
  haveI : IsTotal migration nameLE := ⟨nameLE_total⟩
  haveI : IsTrans migration nameLE := ⟨nameLE_trans⟩
  exact List.sorted_insertionSort nameLE l

theorem sortSlice_strict (l : List migration) (h : (l.map migration.name).Nodup) :
    StrictlyAscending (sortSlice l) := by
  have hn : ((sortSlice l).map migration.name).Nodup :=
    ((sortSlice_perm l).map migration.name).nodup_iff.mpr h
  have hp : (sortSlice l).Pairwise (fun a b => a.name ≠ b.name) :=
    (List.pairwise_map.mp hn)
  have hs := sortSlice_sorted l
  unfold StrictlyAscending
  refine (hs.and hp).imp ?_
  intro a b hab
  obtain ⟨h1, h2⟩ := hab
  cases hl : goLess a.name b.name with
  | true => rfl
  | false =>
    exfalso
    apply h2
    unfold nameLE at h1
    unfold goLess at hl h1
    exact String.ext (lexLess_trichotomy _ _ hl h1)

/-! ## Loading the migrations -/

theorem collect_eq_ok (fs : EmbedFS) (es : List DirEntry) (acc migs : List migration)
    (h : loadMigrations.collect fs es acc = .ok migs) :
    migs = acc ++ (es.filter isMigrationFile).map DirEntry.toMigration := by
  induction es generalizing acc with
  | nil =>
    simp only [loadMigrations.collect, Except.ok.injEq] at h
    simp [h]
  | cons e rest ih =>
    simp only [loadMigrations.collect] at h
    by_cases hk : e.IsDir = true ∨ ¬ HasSuffix e.Name ".sql" = true
    · simp only [hk, if_true] at h
      have hf : isMigrationFile e = false := by
        unfold isMigrationFile
        rcases hk with hk | hk
        · simp [hk]
        · simp [hk]
      rw [ih acc h]
      simp [List.filter_cons, hf]
    · simp only [hk, if_false] at h
      have hf : isMigrationFile e = true := by
        unfold isMigrationFile
        push_neg at hk
        simp [hk.1, hk.2]
      cases hr : fs.readFileErr ("migrations/" ++ e.Name) with
      | some err => simp [hr] at h
      | none =>
        simp only [hr] at h
        rw [ih _ h]
        simp [List.filter_cons, hf, DirEntry.toMigration]

theorem collect_total (fs : EmbedFS) (es : List DirEntry) (acc : List migration)
    (h : ∀ e ∈ es, fs.readFileErr ("migrations/" ++ e.Name) = none) :
    loadMigrations.collect fs es acc =
      .ok (acc ++ (es.filter isMigrationFile).map DirEntry.toMigration) := by
  induction es generalizing acc with
  | nil => simp [loadMigrations.collect]
  | cons e rest ih =>
    have hrest : ∀ x ∈ rest, fs.readFileErr ("migrations/" ++ x.Name) = none :=
      fun x hx => h x (List.mem_cons_of_mem _ hx)
    simp only [loadMigrations.collect]
    by_cases hk : e.IsDir = true ∨ ¬ HasSuffix e.Name ".sql" = true
    · simp only [hk, if_true]
      have hf : isMigrationFile e = false := by
        unfold isMigrationFile
        rcases hk with hk | hk
        · simp [hk]
        · simp [hk]
      rw [ih acc hrest]
      simp [List.filter_cons, hf]
    · simp only [hk, if_false]
      have hf : isMigrationFile e = true := by
        unfold isMigrationFile
        push_neg at hk
        simp [hk.1, hk.2]
      rw [h e (List.mem_cons_self _ _)]
      simp only
      rw [ih _ hrest]
      simp [List.filter_cons, hf, DirEntry.toMigration]

theorem loadMigrations_eq_ok (fs : EmbedFS) (migs : List migration)
    (h : loadMigrations fs = .ok migs) : migs = sortSlice (embedded fs) := by
  unfold loadMigrations at h
  cases hd : fs.readDirErr with
  | some err => simp [hd] at h
  | none =>
    simp only [hd] at h
    cases hc : loadMigrations.collect fs fs.entries [] with
    | error err => simp [hc] at h
    | ok l =>
      simp only [hc, Except.ok.injEq] at h
      have := collect_eq_ok fs fs.entries [] l hc
      simp only [List.nil_append] at this
      rw [← h, this, embedded]

theorem embedded_names_nodup (fs : EmbedFS) (h : (fs.entries.map DirEntry.Name).Nodup) :
    ((embedded fs).map migration.name).Nodup := by
  unfold embedded
  rw [List.map_map]
  have : (migration.name ∘ DirEntry.toMigration) = DirEntry.Name := by
    funext e
    rfl
  rw [this]
  exact h.sublist ((List.filter_sublist _).map _)

/-! ## Runs of the migration engine -/

theorem applyMigrations_of_ok {σ : Type} (d : Driver σ) (fs : EmbedFS) (db : MigDB σ)
    (h : (applyMigrations d fs db).err = none) :
    d.createErr = none ∧
    loadAppliedMigrations d (createTracking db) = .ok (db.tracking.getD []) ∧
    loadMigrations fs = .ok (sortSlice (embedded fs)) ∧
    applyMigrations d fs db =
      applyMigrations.loop d (db.tracking.getD []) (sortSlice (embedded fs)) (createTracking db)
        [] := by
  unfold applyMigrations at h ⊢
  cases hc : d.createErr with
  | some err => simp [hc] at h
  | none =>
    simp only [hc] at h ⊢
    cases ha : loadAppliedMigrations d (createTracking db) with
    | error err => simp [ha] at h
    | ok applied =>
      simp only [ha] at h ⊢
      have hap := (loadAppliedMigrations_eq_ok d _ applied ha).1
      simp only [createTracking, Option.some.injEq] at hap
      subst hap
      cases hl : loadMigrations fs with
      | error err => simp [hl] at h
      | ok migs =>
        have hm := loadMigrations_eq_ok fs migs hl
        subst hm
        simp

theorem scan_total {σ : Type} (d : Driver σ) (ids acc : List String)
    (h : ∀ id, d.scanErr id = none) :
    loadAppliedMigrations.scan d ids acc = .ok (acc ++ ids) := by
  induction ids generalizing acc with
  | nil => simp [loadAppliedMigrations.scan]
  | cons id rest ih =>
    simp only [loadAppliedMigrations.scan, h id]
    rw [ih]
    simp

theorem loadAppliedMigrations_total {σ : Type} (d : Driver σ) (db : MigDB σ) (t : List String)
    (hq : d.queryErr = none) (hs : ∀ id, d.scanErr id = none) (hr : d.rowsErr = none)
    (ht : db.tracking = some t) : loadAppliedMigrations d db = .ok t := by
  unfold loadAppliedMigrations
  simp only [hq, ht, scan_total d t [] hs, hr, List.nil_append]

theorem createTracking_of_some {σ : Type} (db : MigDB σ) (t : List String)
    (h : db.tracking = some t) : createTracking db = db := by
  cases db with
  | mk schema tracking =>
    simp only at h
    subst h
    rfl

theorem ScriptsKeepTracking.of_subset {σ : Type} {d : Driver σ} {l1 l2 : List migration}
    (h : ScriptsKeepTracking d l1) (hsub : ∀ m ∈ l2, m ∈ l1) : ScriptsKeepTracking d l2 :=
  fun m hm => h m (hsub m hm)

theorem ScriptsKeepTracking.sorted {σ : Type} {d : Driver σ} {fs : EmbedFS}
    (h : ScriptsKeepTracking d (embedded fs)) : ScriptsKeepTracking d (sortSlice (embedded fs)) :=
  h.of_subset (fun _ hm => (sortSlice_perm _).subset hm)

theorem logDriver_keeps_tracking (migs : List migration) : ScriptsKeepTracking logDriver migs := by
  intro m _ db db1 h
  simp only [logDriver, Except.ok.injEq] at h
  rw [← h]

theorem commitFailDriver_keeps_tracking (migs : List migration) :
    ScriptsKeepTracking commitFailDriver migs := by
  intro m _ db db1 h
  simp only [commitFailDriver, logDriver, Except.ok.injEq] at h
  rw [← h]

/-- C5, as amended: for a migration set whose scripts do not write `schema_migrations`, when a
first run of `applyMigrations` succeeds, a second run against the resulting database with the
same embedded migrations, whatever the connection does, makes no call inside the loop (it
executes no script and inserts no tracking row) and leaves schema and tracking table as they
are; it succeeds when its statements before the loop (create table, query, scan, iterate) do not
fail; and over both runs no script name is executed twice. -/
theorem C5_second_run_is_noop {σ : Type} (d1 d2 : Driver σ) (fs : EmbedFS) (db : MigDB σ)
    (hk : ScriptsKeepTracking d1 (embedded fs))
    (h1 : (applyMigrations d1 fs db).err = none) :
    (applyMigrations d2 fs (applyMigrations d1 fs db).db).trace = [] ∧
    (applyMigrations d2 fs (applyMigrations d1 fs db).db).executed = [] ∧
    (applyMigrations d2 fs (applyMigrations d1 fs db).db).recorded = [] ∧
    (applyMigrations d2 fs (applyMigrations d1 fs db).db).db = (applyMigrations d1 fs db).db ∧
    (d2.createErr = none → d2.queryErr = none → (∀ id, d2.scanErr id = none) →
      d2.rowsErr = none →
      (applyMigrations d2 fs (applyMigrations d1 fs db).db).err = none) ∧
    ((applyMigrations d1 fs db).executed ++
      (applyMigrations d2 fs (applyMigrations d1 fs db).db).executed).Nodup := by
  obtain ⟨_, _, hload, hrun⟩ := applyMigrations_of_ok d1 fs db h1
  rw [hrun] at h1
  obtain ⟨ht, _, _, hnd⟩ :=
    loop_of_ok d1 (db.tracking.getD []) (sortSlice (embedded fs)) (createTracking db) []
      (db.tracking.getD []) hk.sorted rfl h1
  have htr := loop_trace_of_ok d1 (db.tracking.getD []) (sortSlice (embedded fs))
    (createTracking db) [] h1
  rw [← hrun] at ht htr
  have hct := createTracking_of_some _ _ ht
  have key : (applyMigrations d2 fs (applyMigrations d1 fs db).db).trace = [] ∧
      (applyMigrations d2 fs (applyMigrations d1 fs db).db).db = (applyMigrations d1 fs db).db ∧
      (d2.createErr = none → d2.queryErr = none → (∀ id, d2.scanErr id = none) →
        d2.rowsErr = none →
        (applyMigrations d2 fs (applyMigrations d1 fs db).db).err = none) := by
    generalize applyMigrations d1 fs db = r1 at ht hct
    unfold applyMigrations
    rw [hct, hload]
    cases hc : d2.createErr with
    | some err => simp
    | none =>
      simp only
      cases ha : loadAppliedMigrations d2 r1.db with
      | error err =>
        simp only [true_and]
        intro _ hq hs hr
        rw [loadAppliedMigrations_total d2 r1.db _ hq hs hr ht] at ha
        cases ha
      | ok applied =>
        simp only
        have hap := (loadAppliedMigrations_eq_ok d2 _ applied ha).1
        rw [ht] at hap
        simp only [Option.some.injEq] at hap
        have hall : ∀ m ∈ sortSlice (embedded fs), m.name ∈ applied := by
          intro m hm
          rw [← hap]
          by_cases hin : m.name ∈ db.tracking.getD []
          · exact List.mem_append_left _ hin
          · apply List.mem_append_right
            apply List.mem_map.mpr
            exact ⟨m, by simp [pendingOf, List.mem_filter, hm, hin], rfl⟩
        rw [loop_all_applied d2 applied _ _ _ hall]
        simp
  obtain ⟨k1, k2, k3⟩ := key
  refine ⟨k1, by simp [MigRun.executed, k1], by simp [MigRun.recorded, k1], k2, k3, ?_⟩
  simp only [MigRun.executed, k1, List.filterMap_nil, List.append_nil, htr, List.nil_append,
    filterMap_scriptName_txEvents]
  exact hnd

/-- C5 at the sample directory and a fresh database: the first run succeeds, the second run
succeeds and the database keeps the three tracking rows. -/
theorem C5_second_run_is_noop_witness :
    (ScriptsKeepTracking logDriver (embedded sampleFS) ∧
      (applyMigrations logDriver sampleFS freshDB).err = none) ∧
    (applyMigrations logDriver sampleFS (applyMigrations logDriver sampleFS freshDB).db).err
      = none ∧
    (applyMigrations logDriver sampleFS (applyMigrations logDriver sampleFS freshDB).db).db.tracking
      = some ["001_init.sql", "002_index.sql", "003_view.sql"] :=
  ⟨⟨logDriver_keeps_tracking _, by decide⟩,
    (C5_second_run_is_noop logDriver logDriver sampleFS freshDB (logDriver_keeps_tracking _)
      (by decide)).2.2.2.2.1 rfl rfl (fun _ => rfl) rfl,
    (congrArg MigDB.tracking
      (C5_second_run_is_noop logDriver logDriver sampleFS freshDB (logDriver_keeps_tracking _)
        (by decide)).2.2.2.1).trans (by decide)⟩

/-- C5 as stated fails.  With the scripts `001_seed.sql` and `002_reset.sql`, the second of which
empties `schema_migrations`, the first run on a fresh database succeeds and leaves only
`002_reset.sql` recorded; the second run then executes `001_seed.sql` again and inserts its
tracking row.  And after a first run that succeeds, a second run on a connection that cannot
reach the database returns an error. -/
theorem C5_second_run_counterexample :
    (applyMigrations sqlDriver resetFS freshDB).err = none ∧
    (applyMigrations sqlDriver resetFS freshDB).executed = ["001_seed.sql", "002_reset.sql"] ∧
    (applyMigrations sqlDriver resetFS freshDB).db.tracking = some ["002_reset.sql"] ∧
    (applyMigrations sqlDriver resetFS (applyMigrations sqlDriver resetFS freshDB).db).err
      = none ∧
    (applyMigrations sqlDriver resetFS (applyMigrations sqlDriver resetFS freshDB).db).executed
      = ["001_seed.sql"] ∧
    (applyMigrations sqlDriver resetFS (applyMigrations sqlDriver resetFS freshDB).db).recorded
      = ["001_seed.sql"] ∧
    (applyMigrations sqlDriver resetFS (applyMigrations sqlDriver resetFS freshDB).db).db.tracking
      = some ["002_reset.sql", "001_seed.sql"] ∧
    (applyMigrations logDriver sampleFS freshDB).err = none ∧
    (applyMigrations downDriver sampleFS (applyMigrations logDriver sampleFS freshDB).db).err
      ≠ none := by
  decide

theorem loop_fail_at {σ : Type} (d : Driver σ) (applied : List String)
    (pre post : List migration) (m : migration) (db : MigDB σ) (tr : List TxEvent)
    (hpre : (applyMigrations.loop d applied pre db tr).err = none)
    (hm : m.name ∉ applied)
    (hf : StepFails d m (applyMigrations.loop d applied pre db tr).db) :
    ∃ e, Contains e.Error m.name ∧
      applyMigrations.loop d applied (pre ++ m :: post) db tr =
        { err := some e
          db := (applyMigrations.step d m (applyMigrations.loop d applied pre db tr).db).2.1
          trace := (applyMigrations.loop d applied pre db tr).trace ++
            (applyMigrations.step d m (applyMigrations.loop d applied pre db tr).db).2.2 } := by
  rw [loop_append_ok d applied pre (m :: post) db tr hpre]
  obtain ⟨e, he, hc, _⟩ := step_of_fails d m _ hf
  refine ⟨e, hc, ?_⟩
  simp only [applyMigrations.loop, hm, if_false]
  rcases hs : applyMigrations.step d m (applyMigrations.loop d applied pre db tr).db with
    ⟨e1, db1, events⟩
  rw [hs] at he
  simp only at he
  subst he
  rfl

theorem applyMigrations_committed {σ : Type} (d : Driver σ) (fs : EmbedFS) (db : MigDB σ)
    (hk : ScriptsKeepTracking d (embedded fs)) :
    ∃ done : List migration,
      (applyMigrations d fs db).db.tracking.getD [] =
        db.tracking.getD [] ++ done.map migration.name ∧
      runScripts d done (createTracking db) =
        .ok (createTracking (applyMigrations d fs db).db) := by
  unfold applyMigrations
  cases d.createErr with
  | some err => exact ⟨[], by simp, rfl⟩
  | none =>
    simp only
    cases loadAppliedMigrations d (createTracking db) with
    | error err => exact ⟨[], by simp [createTracking], rfl⟩
    | ok applied =>
      simp only
      cases hl : loadMigrations fs with
      | error err => exact ⟨[], by simp [createTracking], rfl⟩
      | ok migs =>
        simp only
        have hm := loadMigrations_eq_ok fs migs hl
        subst hm
        obtain ⟨done, _, h2, h3⟩ :=
          loop_committed d applied (sortSlice (embedded fs)) (createTracking db) []
            (db.tracking.getD []) hk.sorted rfl
        refine ⟨done, by rw [h2]; rfl, ?_⟩
        rw [createTracking_of_some _ _ h2]
        exact h3

theorem commitFailDriver_aborts : FailedCommitAborts commitFailDriver := by
  intro name err h
  simp only [commitFailDriver] at h
  split_ifs at h

/-- C6, as amended: for a migration set whose scripts do not write `schema_migrations`, after
any run the tracking table has grown by the names of a list of migrations, and the database is
the one that applying exactly those in full, in that order, produces; when the run reaches a
pending migration `m` (the ones before it went through) and one of its four calls fails (begin,
script, insert of the tracking row, commit), `applyMigrations` returns an error whose message
contains the name of `m` and makes no call for a migration after `m`; and when moreover a commit
that reports a failure has aborted the transaction, the database is the one the migrations
before `m` left, so `m` is not in the tracking table and its script has no effect, and the
pending migrations before `m` are all recorded and applied. -/
theorem C6_failed_migration_is_rolled_back {σ : Type} (d : Driver σ) (fs : EmbedFS)
    (db : MigDB σ) (hk : ScriptsKeepTracking d (embedded fs)) :
    (∃ done : List migration,
      (applyMigrations d fs db).db.tracking.getD [] =
        db.tracking.getD [] ++ done.map migration.name ∧
      runScripts d done (createTracking db) =
        .ok (createTracking (applyMigrations d fs db).db)) ∧
    (∀ (pre post : List migration) (m : migration) (applied : List String),
      (fs.entries.map DirEntry.Name).Nodup →
      d.createErr = none →
      loadAppliedMigrations d (createTracking db) = .ok applied →
      loadMigrations fs = .ok (pre ++ m :: post) →
      m.name ∉ applied →
      (applyMigrations.loop d applied pre (createTracking db) []).err = none →
      StepFails d m (applyMigrations.loop d applied pre (createTracking db) []).db →
      (∃ e, (applyMigrations d fs db).err = some e ∧ Contains e.Error m.name) ∧
      (∀ x ∈ post, ∀ ev ∈ (applyMigrations d fs db).trace, ev.name ≠ x.name) ∧
      (FailedCommitAborts d →
        (applyMigrations d fs db).db =
          (applyMigrations.loop d applied pre (createTracking db) []).db ∧
        (applyMigrations d fs db).db.tracking =
          some (applied ++ (pendingOf applied pre).map migration.name) ∧
        m.name ∉ applied ++ (pendingOf applied pre).map migration.name ∧
        runScripts d (pendingOf applied pre) (createTracking db) =
          .ok (applyMigrations d fs db).db)) := by
  refine ⟨applyMigrations_committed d fs db hk, ?_⟩
  intro pre post m applied hnodup hcreate happlied hload hpend hpre hfail
  have hap := (loadAppliedMigrations_eq_ok d _ applied happlied).1
  obtain ⟨e, hc, hrun⟩ := loop_fail_at d applied pre post m (createTracking db) [] hpre hpend hfail
  have hr : applyMigrations d fs db =
      applyMigrations.loop d applied (pre ++ m :: post) (createTracking db) [] := by
    unfold applyMigrations
    simp only [hcreate, happlied, hload]
  have hsorted := loadMigrations_eq_ok fs _ hload
  have hkpre : ScriptsKeepTracking d pre := by
    apply hk.sorted.of_subset
    intro x hx
    rw [← hsorted]
    exact List.mem_append_left _ hx
  obtain ⟨h1, h2, _, _⟩ :=
    loop_of_ok d applied pre (createTracking db) [] applied hkpre hap hpre
  have h3 := loop_trace_of_ok d applied pre (createTracking db) [] hpre
  have hnames : ((pre ++ m :: post).map migration.name).Nodup := by
    rw [hsorted]
    exact ((sortSlice_perm _).map migration.name).nodup_iff.mpr (embedded_names_nodup fs hnodup)
  rw [List.map_append, List.map_cons] at hnames
  have hnd := List.nodup_append.mp hnames
  have hmd := List.nodup_cons.mp hnd.2.1
  rw [hr, hrun]
  refine ⟨⟨e, rfl, hc⟩, ?_, ?_⟩
  · intro x hx ev hev heq
    have hxn : x.name ∈ post.map migration.name := List.mem_map_of_mem _ hx
    simp only at hev
    rw [h3] at hev
    rcases List.mem_append.mp hev with hev | hev
    · simp only [List.nil_append, List.mem_flatMap] at hev
      obtain ⟨y, hy1, hy2⟩ := hev
      have hyn : ev.name = y.name := by
        simp only [txEvents, List.mem_cons, List.mem_singleton, List.not_mem_nil, or_false] at hy2
        rcases hy2 with h | h | h | h <;> rw [h] <;> rfl
      have hypre : y ∈ pre := (List.mem_filter.mp hy1).1
      have hyx : y.name ∈ post.map migration.name := by
        rw [← hyn, heq]
        exact hxn
      exact hnd.2.2 (List.mem_map_of_mem _ hypre) (List.mem_cons_of_mem _ hyx)
    · have := step_events_name d m _ ev hev
      rw [heq] at this
      exact hmd.1 (this ▸ hxn)
  · intro hab
    obtain ⟨_, _, _, hdb⟩ := step_of_fails d m _ hfail
    have hdb1 := hdb hab
    simp only
    rw [hdb1]
    refine ⟨rfl, h1, ?_, h2⟩
    intro hin
    rcases List.mem_append.mp hin with hin | hin
    · exact hpend hin
    · obtain ⟨x, hx1, hx2⟩ := List.mem_map.mp hin
      have hxpre : x ∈ pre := (List.mem_filter.mp hx1).1
      have hmpre : m.name ∈ pre.map migration.name := by
        rw [← hx2]
        exact List.mem_map_of_mem _ hxpre
      exact hnd.2.2 hmpre (List.mem_cons_self _ _)

/-- C6 at the sample directory with a commit that fails for `002_index.sql`: the run stops
there, only `001_init.sql` is recorded and applied, and nothing is done for `003_view.sql`. -/
theorem C6_failed_migration_is_rolled_back_witness :
    (ScriptsKeepTracking commitFailDriver (embedded sampleFS) ∧
      (sampleFS.entries.map DirEntry.Name).Nodup ∧
      commitFailDriver.createErr = none ∧
      loadAppliedMigrations commitFailDriver (createTracking freshDB) = .ok [] ∧
      loadMigrations sampleFS = .ok ([mig001] ++ mig002 :: [mig003]) ∧
      mig002.name ∉ ([] : List String) ∧
      (applyMigrations.loop commitFailDriver [] [mig001] (createTracking freshDB) []).err = none ∧
      StepFails commitFailDriver mig002
        (applyMigrations.loop commitFailDriver [] [mig001] (createTracking freshDB) []).db ∧
      FailedCommitAborts commitFailDriver) ∧
    (applyMigrations commitFailDriver sampleFS freshDB).db.tracking = some ["001_init.sql"] ∧
    (∀ ev ∈ (applyMigrations commitFailDriver sampleFS freshDB).trace, ev.name ≠ "003_view.sql") :=
  have hfail : StepFails commitFailDriver mig002
      (applyMigrations.loop commitFailDriver [] [mig001] (createTracking freshDB) []).db :=
    Or.inr (Or.inr (Or.inr (by decide)))
  have h := (C6_failed_migration_is_rolled_back commitFailDriver sampleFS freshDB
    (commitFailDriver_keeps_tracking _)).2
    [mig001] [mig003] mig002 [] (by decide) rfl rfl rfl (by decide) (by decide) hfail
  ⟨⟨commitFailDriver_keeps_tracking _, by decide, rfl, rfl, rfl, by decide, by decide, hfail,
      commitFailDriver_aborts⟩,
    (h.2.2 commitFailDriver_aborts).2.1.trans (by decide),
    fun ev hev => h.2.1 mig003 (List.mem_singleton.mpr rfl) ev hev⟩

/-- C6 as stated fails.  With `001_init.sql` a script that writes the name `002_index.sql` into
`schema_migrations`, the insert of the tracking row for `002_index.sql` fails on the repeated
key: `applyMigrations` returns that error, the script of `002_index.sql` has left nothing in the
schema, and yet `002_index.sql` is in the tracking table.  And when the answer to the commit of
`002_index.sql` is lost after the server has committed, `applyMigrations` returns the commit
error although the migration is recorded and its script's effect is persisted. -/
theorem C6_failed_migration_counterexample :
    (applyMigrations sqlDriver hijackFS freshDB).err =
      some (.wrap "record migration 002_index.sql: " duplicateKey) ∧
    (applyMigrations sqlDriver hijackFS freshDB).db.tracking =
      some ["002_index.sql", "001_init.sql"] ∧
    (applyMigrations sqlDriver hijackFS freshDB).db.schema = [] ∧
    (applyMigrations lostCommitDriver sampleFS freshDB).err =
      some (.wrap "commit migration 002_index.sql: " (.leaf "conn closed")) ∧
    (applyMigrations lostCommitDriver sampleFS freshDB).db.tracking =
      some ["001_init.sql", "002_index.sql"] ∧
    (applyMigrations lostCommitDriver sampleFS freshDB).db.schema =
      ["CREATE TABLE h (user_id TEXT);", "CREATE INDEX h_user ON h (user_id);"] := by
  decide

theorem loadMigrations_total (fs : EmbedFS) (hd : fs.readDirErr = none)
    (hf : ∀ e ∈ fs.entries, fs.readFileErr ("migrations/" ++ e.Name) = none) :
    loadMigrations fs = .ok (sortSlice (embedded fs)) := by
  unfold loadMigrations
  simp only [hd, collect_total fs fs.entries [] hf, List.nil_append, embedded]

/-- C7: for an embedded directory (entries with distinct names), `loadMigrations`, which
returns whenever the directory and its files can be read, returns exactly the entries that are
not directories and whose name ends in ".sql", in strictly ascending order of name; and the
scripts a successful `applyMigrations` executes are those of the loaded migrations whose name is
not in the tracking table at the start, in that strictly ascending order, each once. -/
theorem C7_pending_in_name_order {σ : Type} (d : Driver σ) (fs : EmbedFS) (db : MigDB σ)
    (hnames : (fs.entries.map DirEntry.Name).Nodup) :
    (∀ migs, loadMigrations fs = .ok migs →
      migs.Perm ((fs.entries.filter (fun e => !e.IsDir && HasSuffix e.Name ".sql")).map
        (fun e => { name := e.Name, sql := e.content })) ∧
      StrictlyAscending migs) ∧
    (fs.readDirErr = none →
      (∀ e ∈ fs.entries, fs.readFileErr ("migrations/" ++ e.Name) = none) →
      ∃ migs, loadMigrations fs = .ok migs) ∧
    ((applyMigrations d fs db).err = none →
      ∃ migs, loadMigrations fs = .ok migs ∧
        (applyMigrations d fs db).executed =
          (migs.filter (fun m => m.name ∉ db.tracking.getD [])).map migration.name ∧
        StrictlyAscending (migs.filter (fun m => m.name ∉ db.tracking.getD [])) ∧
        (applyMigrations d fs db).executed.Nodup) := by
  have hmignames := embedded_names_nodup fs hnames
  have hstrict := sortSlice_strict (embedded fs) hmignames
  refine ⟨?_, ?_, ?_⟩
  · intro migs hm
    rw [loadMigrations_eq_ok fs migs hm]
    exact ⟨sortSlice_perm _, hstrict⟩
  · intro hd hf
    exact ⟨_, loadMigrations_total fs hd hf⟩
  · intro hok
    obtain ⟨_, _, hload, hrun⟩ := applyMigrations_of_ok d fs db hok
    rw [hrun] at hok
    have htr := loop_trace_of_ok d (db.tracking.getD []) (sortSlice (embedded fs))
      (createTracking db) [] hok
    have hex : (applyMigrations d fs db).executed =
        (pendingOf (db.tracking.getD []) (sortSlice (embedded fs))).map migration.name := by
      rw [hrun, MigRun.executed, htr, List.nil_append, filterMap_scriptName_txEvents]
    refine ⟨_, hload, hex, ?_, ?_⟩
    · exact List.Pairwise.filter _ hstrict
    · rw [hex]
      have hsorted : ((sortSlice (embedded fs)).map migration.name).Nodup :=
        ((sortSlice_perm _).map migration.name).nodup_iff.mpr hmignames
      exact hsorted.sublist ((List.filter_sublist _).map _)

/-- C7 at the sample directory and a database where `001_init.sql` is applied: the run executes
`002_index.sql` and then `003_view.sql`. -/
theorem C7_pending_in_name_order_witness :
    ((sampleFS.entries.map DirEntry.Name).Nodup ∧
      (applyMigrations logDriver sampleFS
        { schema := ["CREATE TABLE h (user_id TEXT);"], tracking := some ["001_init.sql"] }).err
        = none) ∧
    (applyMigrations logDriver sampleFS
        { schema := ["CREATE TABLE h (user_id TEXT);"], tracking := some ["001_init.sql"] }).executed
      = ["002_index.sql", "003_view.sql"] ∧
    (applyMigrations logDriver sampleFS
        { schema := ["CREATE TABLE h (user_id TEXT);"], tracking := some ["001_init.sql"] }).executed.Nodup :=
  ⟨⟨by decide, by decide⟩, by decide,
    ((C7_pending_in_name_order logDriver sampleFS
      { schema := ["CREATE TABLE h (user_id TEXT);"], tracking := some ["001_init.sql"] }
      (by decide)).2.2 (by decide)).elim (fun _ h => h.2.2.2)⟩

/-! ## History handlers -/

theorem ListByUser_received (userID : String) (limit offset : Int) (db : SqlDB) :
    (HistoryRepository.ListByUser userID limit offset db).2 =
      { db with received := db.received ++ [Stmt.select userID limit offset] } := by
  unfold HistoryRepository.ListByUser
  cases db.fault with
  | some err => rfl
  | none =>
    simp only
    split_ifs
    · rfl
    · rfl
    · split
      · rfl
      · cases db.rowsFault <;> rfl

theorem Atoi_empty :
    Atoi "" = .error (.leaf ("strconv.Atoi: parsing " ++ "".quote ++ ": invalid syntax")) := by
  rfl

/-- C8: `parseLimit` always lies in [1, 100]; it is 50 for the empty string, for a string
`strconv.Atoi` rejects (not a base-10 integer, or outside the range of `int`) and for a parsed
value that is not positive ("0", "-5"); it is 100 for a parsed value above 100 ("500"); it is
the parsed value otherwise; and `handleListHistory`, for an authenticated request, sends the
database exactly one query, whose limit is `parseLimit` of the query parameter `limit`. -/
theorem C8_parseLimit_clamped (raw : String) (tl : TimeLayout) (r : HttpRequest) (db : SqlDB)
    (userID : String) :
    (1 ≤ parseLimit raw ∧ parseLimit raw ≤ 100) ∧
    (raw = "" → parseLimit raw = 50) ∧
    (∀ err, Atoi raw = .error err → parseLimit raw = 50) ∧
    (∀ v, Atoi raw = .ok v → v ≤ 0 → parseLimit raw = 50) ∧
    (∀ v, Atoi raw = .ok v → 100 < v → parseLimit raw = 100) ∧
    (∀ v, Atoi raw = .ok v → 0 < v → v ≤ 100 → parseLimit raw = v) ∧
    (parseLimit "0" = 50 ∧ parseLimit "-5" = 50 ∧ parseLimit "500" = 100 ∧
      parseLimit "abc" = 50 ∧ parseLimit "9223372036854775808" = 50 ∧ parseLimit "7" = 7) ∧
    (r.ctxUserID = some userID → userID ≠ "" →
      (handleListHistory tl r db).2.received = db.received ++
        [Stmt.select userID (parseLimit (r.query "limit")) (parseOffset (r.query "offset"))]) := by
  refine ⟨?_, ?_, ?_, ?_, ?_, ?_, by decide, ?_⟩
  · unfold parseLimit defaultHistoryLimit maxHistoryLimit
    split_ifs
    · omega
    · cases Atoi raw with
      | error err => simp
      | ok v =>
        simp only
        split_ifs <;> omega
  · intro h
    simp [parseLimit, h, defaultHistoryLimit]
  · intro err h
    simp [parseLimit, h, defaultHistoryLimit]
  · intro v h hv
    simp [parseLimit, h, hv, defaultHistoryLimit]
  · intro v h hv
    have h0 : ¬ v ≤ 0 := by omega
    have hne : raw ≠ "" := by
      intro he
      rw [he, Atoi_empty] at h
      cases h
    simp [parseLimit, h, hv, h0, hne, maxHistoryLimit]
  · intro v h h0 h100
    have g0 : ¬ v ≤ 0 := by omega
    have g100 : ¬ v > 100 := by omega
    have hne : raw ≠ "" := by
      intro he
      rw [he, Atoi_empty] at h
      cases h
    simp [parseLimit, h, g0, g100, hne, maxHistoryLimit]
  · intro hu hne
    unfold handleListHistory
    simp only [hu, hne, if_false]
    have := ListByUser_received userID (parseLimit (r.query "limit"))
      (parseOffset (r.query "offset")) db
    rcases hl : HistoryRepository.ListByUser userID (parseLimit (r.query "limit"))
      (parseOffset (r.query "offset")) db with ⟨res, db1⟩
    rw [hl] at this
    simp only at this
    cases res <;> simp [this]

/-- C8 at a request of user `u1` with `limit=500` against the sample database: the query
reaches the database with limit 100 and offset 0. -/
theorem C8_parseLimit_clamped_witness :
    ((sampleRequest "500" sampleCreate).ctxUserID = some "u1" ∧ "u1" ≠ "" ∧
      Atoi "500" = .ok 500 ∧ (100 : Int) < 500) ∧
    parseLimit "500" = 100 ∧
    (handleListHistory sampleLayout (sampleRequest "500" sampleCreate) sampleDB).2.received =
      [Stmt.select "u1" 100 0] :=
  have h := C8_parseLimit_clamped "500" sampleLayout (sampleRequest "500" sampleCreate) sampleDB "u1"
  ⟨⟨rfl, by decide, rfl, by decide⟩, h.2.2.2.2.1 500 rfl (by decide),
    (h.2.2.2.2.2.2.2 rfl (by decide)).trans (by decide)⟩

/-- C9: `parseOffset` is never negative and is a plain value (no error result): it is 0 for the
empty string, for a string `strconv.Atoi` rejects and for a negative parsed value, and it is the
parsed value otherwise, however large. -/
theorem C9_parseOffset_nonneg (raw : String) :
    0 ≤ parseOffset raw ∧
    (raw = "" → parseOffset raw = 0) ∧
    (∀ err, Atoi raw = .error err → parseOffset raw = 0) ∧
    (∀ v, Atoi raw = .ok v → v < 0 → parseOffset raw = 0) ∧
    (∀ v, Atoi raw = .ok v → 0 ≤ v → parseOffset raw = v) ∧
    (parseOffset "-3" = 0 ∧ parseOffset "x1" = 0 ∧ parseOffset "0" = 0 ∧ parseOffset "250" = 250 ∧
      parseOffset "9223372036854775807" = 9223372036854775807) := by
  refine ⟨?_, ?_, ?_, ?_, ?_, by decide⟩
  · unfold parseOffset
    split_ifs
    · omega
    · cases Atoi raw with
      | error err => simp
      | ok v =>
        simp only
        split_ifs <;> omega
  · intro h
    simp [parseOffset, h]
  · intro err h
    simp [parseOffset, h]
  · intro v h hv
    simp [parseOffset, h, hv]
  · intro v h hv
    have g0 : ¬ v < 0 := by omega
    have hne : raw ≠ "" := by
      intro he
      rw [he, Atoi_empty] at h
      cases h
    simp [parseOffset, h, g0, hne]

/-- C9 at the offset "250", which the parser accepts and `parseOffset` returns unchanged. -/
theorem C9_parseOffset_nonneg_witness :
    (Atoi "250" = .ok 250 ∧ (0 : Int) ≤ 250) ∧ parseOffset "250" = 250 :=
  ⟨⟨rfl, by decide⟩, (C9_parseOffset_nonneg "250").2.2.2.2.1 250 rfl (by decide)⟩

theorem validate_of_invalid (req : createHistoryRequest)
    (hbad : req.Accuracy < 0 ∨ req.Accuracy > 100 ∨ req.WPM < 0 ∨ req.Errors < 0 ∨ req.Time < 0 ∨
      ¬ (req.Language = "javascript" ∨ req.Language = "python" ∨ req.Language = "go")) :
    ∃ msg, validateHistoryRequest req = some (errValidation msg) := by
  by_cases h1 : req.Language = ""
  · exact ⟨"language is required", by simp [validateHistoryRequest, h1]⟩
  by_cases h2 : isSupportedLanguage req.Language = true
  swap
  · exact ⟨"unsupported language", by simp [validateHistoryRequest, h1, h2]⟩
  by_cases h3 : req.WPM < 0
  · exact ⟨"wpm must be non-negative", by simp [validateHistoryRequest, h1, h2, h3]⟩
  by_cases h4 : req.Accuracy < 0 ∨ req.Accuracy > 100
  · exact ⟨"accuracy must be between 0 and 100",
      by simp only [validateHistoryRequest, h1, h2, h3, h4]; simp⟩
  by_cases h5 : req.Errors < 0
  · exact ⟨"errors must be non-negative",
      by simp only [validateHistoryRequest, h1, h2, h3, h4, h5]; simp⟩
  by_cases h6 : req.Time < 0
  · exact ⟨"time must be non-negative",
      by simp only [validateHistoryRequest, h1, h2, h3, h4, h5, h6]; simp⟩
  exfalso
  have hl : req.Language = "javascript" ∨ req.Language = "python" ∨ req.Language = "go" := by
    by_contra hn
    simp [isSupportedLanguage, hn] at h2
  push_neg at h4
  rcases hbad with h | h | h | h | h | h
  · omega
  · omega
  · omega
  · omega
  · omega
  · exact h hl

/-- C10: a create request whose accuracy is outside [0, 100], or whose wpm, errors or time is
negative, or whose language is none of "javascript", "python", "go", is rejected by
`validateHistoryRequest` with a validation error; `handleCreateHistory`, given an authenticated
request whose body decodes to it, responds 422 with that message; and whoever the caller is, it
sends no statement to the database and leaves every row as it was. -/
theorem C10_invalid_create_rejected (tl : TimeLayout) (r : HttpRequest) (db : SqlDB)
    (req : createHistoryRequest)
    (hbad : req.Accuracy < 0 ∨ req.Accuracy > 100 ∨ req.WPM < 0 ∨ req.Errors < 0 ∨ req.Time < 0 ∨
      ¬ (req.Language = "javascript" ∨ req.Language = "python" ∨ req.Language = "go"))
    (hbody : r.body = .ok req) :
    (∃ msg, validateHistoryRequest req = some (errValidation msg) ∧
      ∀ userID, r.ctxUserID = some userID → userID ≠ "" →
        (handleCreateHistory tl r db).1 = WriteError 422 msg) ∧
    (handleCreateHistory tl r db).2 = db ∧
    (handleCreateHistory tl r db).2.received = db.received ∧
    (handleCreateHistory tl r db).2.practice_history = db.practice_history := by
  obtain ⟨msg, hmsg⟩ := validate_of_invalid req hbad
  have hdb : (handleCreateHistory tl r db).2 = db := by
    unfold handleCreateHistory
    cases hu : r.ctxUserID with
    | none => rfl
    | some userID =>
      simp only
      split_ifs
      · rfl
      · simp only [hbody, hmsg]
  refine ⟨⟨msg, hmsg, ?_⟩, hdb, by rw [hdb], by rw [hdb]⟩
  intro userID hu hne
  unfold handleCreateHistory
  simp only [hu, hne, if_false, hbody, hmsg, errValidation, GoError.Error]

/-- C10 at the requests of the spec with accuracy 101, wpm -1 and language "ruby", sent by user
`u1`: each is answered 422 and the sample database is unchanged. -/
theorem C10_invalid_create_rejected_witness :
    (handleCreateHistory sampleLayout
      (sampleRequest "" { sampleCreate with Accuracy := 101 }) sampleDB).2 = sampleDB ∧
    (handleCreateHistory sampleLayout
      (sampleRequest "" { sampleCreate with WPM := -1 }) sampleDB).2 = sampleDB ∧
    (handleCreateHistory sampleLayout
      (sampleRequest "" { sampleCreate with Language := "ruby" }) sampleDB).2 = sampleDB ∧
    (handleCreateHistory sampleLayout
      (sampleRequest "" { sampleCreate with Language := "ruby" }) sampleDB).1.status = 422 :=
  ⟨(C10_invalid_create_rejected sampleLayout (sampleRequest "" { sampleCreate with Accuracy := 101 })
      sampleDB { sampleCreate with Accuracy := 101 } (Or.inr (Or.inl (by decide))) rfl).2.1,
    (C10_invalid_create_rejected sampleLayout (sampleRequest "" { sampleCreate with WPM := -1 })
      sampleDB { sampleCreate with WPM := -1 } (Or.inr (Or.inr (Or.inl (by decide)))) rfl).2.1,
    (C10_invalid_create_rejected sampleLayout
      (sampleRequest "" { sampleCreate with Language := "ruby" })
      sampleDB { sampleCreate with Language := "ruby" }
      (Or.inr (Or.inr (Or.inr (Or.inr (Or.inr (by decide)))))) rfl).2.1,
    by decide⟩

/-! ## Validation of create requests -/

theorem isSupportedLanguage_iff (language : String) :
    isSupportedLanguage language = true ↔
      (language = "javascript" ∨ language = "python" ∨ language = "go") := by
  unfold isSupportedLanguage
  split_ifs with h
  · simp [h]
  · simp [h]

theorem validate_eq_firstFailure (req : createHistoryRequest) :
    validateHistoryRequest req = (firstFailure req).map errValidation := by
  unfold firstFailure historyChecks
  by_cases h1 : req.Language = ""
  · simp [validateHistoryRequest, h1, List.find?]
  by_cases h2 : isSupportedLanguage req.Language = true
  swap
  · have g2 := (not_congr (isSupportedLanguage_iff req.Language)).mp h2
    simp [validateHistoryRequest, h1, h2, g2, List.find?]
  have g2 := (isSupportedLanguage_iff req.Language).mp h2
  by_cases h3 : req.WPM < 0
  · simp [validateHistoryRequest, h1, h2, g2, h3, List.find?]
  by_cases h4 : req.Accuracy < 0 ∨ req.Accuracy > 100
  · simp only [validateHistoryRequest, h1, h2, g2, h3, h4, List.find?]
    simp
  by_cases h5 : req.Errors < 0
  · simp only [validateHistoryRequest, h1, h2, g2, h3, h4, h5, List.find?]
    simp
  by_cases h6 : req.Time < 0
  · simp only [validateHistoryRequest, h1, h2, g2, h3, h4, h5, h6, List.find?]
    simp
  by_cases h7 : TrimSpace req.Date = ""
  · simp only [validateHistoryRequest, h1, h2, g2, h3, h4, h5, h6, h7, List.find?]
    simp
  · simp only [validateHistoryRequest, h1, h2, g2, h3, h4, h5, h6, h7, List.find?]
    simp

theorem validate_eq_none_iff (req : createHistoryRequest) :
    validateHistoryRequest req = none ↔
      ((req.Language = "javascript" ∨ req.Language = "python" ∨ req.Language = "go") ∧
        0 ≤ req.WPM ∧ 0 ≤ req.Accuracy ∧ req.Accuracy ≤ 100 ∧ 0 ≤ req.Errors ∧ 0 ≤ req.Time ∧
        TrimSpace req.Date ≠ "") := by
  constructor
  · intro h
    unfold validateHistoryRequest at h
    split_ifs at h with h1 h2 h3 h4 h5 h6 h7
    have g2 := (isSupportedLanguage_iff req.Language).mp (by simpa using h2)
    push_neg at h4
    exact ⟨g2, by omega, by omega, by omega, by omega, by omega, h7⟩
  · rintro ⟨hl, h3, h4, h4b, h5, h6, h7⟩
    have h2 := (isSupportedLanguage_iff req.Language).mpr hl
    have h1 : req.Language ≠ "" := by
      rcases hl with h | h | h <;> rw [h] <;> decide
    have g3 : ¬ req.WPM < 0 := by omega
    have g4 : ¬ (req.Accuracy < 0 ∨ req.Accuracy > 100) := by omega
    have g5 : ¬ req.Errors < 0 := by omega
    have g6 : ¬ req.Time < 0 := by omega
    simp only [validateHistoryRequest, h1, h2, g3, g4, g5, g6, h7]
    simp

/-- C14: `validateHistoryRequest` returns nil exactly when the language is one of "javascript",
"python", "go", wpm, errors and time are not negative, accuracy lies in [0, 100] and the date is
not empty after trimming white space; otherwise it returns the message of the first failing
check in the order language required, unsupported language, wpm, accuracy, errors, time, date
required; and it does not check that the date parses: a request that is fine but for a date
that is no timestamp passes. -/
theorem C14_validate_first_failing_check (req : createHistoryRequest) :
    (validateHistoryRequest req = none ↔
      ((req.Language = "javascript" ∨ req.Language = "python" ∨ req.Language = "go") ∧
        0 ≤ req.WPM ∧ 0 ≤ req.Accuracy ∧ req.Accuracy ≤ 100 ∧ 0 ≤ req.Errors ∧ 0 ≤ req.Time ∧
        TrimSpace req.Date ≠ "")) ∧
    validateHistoryRequest req = (firstFailure req).map errValidation ∧
    (validateHistoryRequest req = none ↔ firstFailure req = none) ∧
    validateHistoryRequest { sampleCreate with Date := "not a date" } = none ∧
    validateHistoryRequest { req with Language := "", WPM := -1 } =
      some (errValidation "language is required") ∧
    validateHistoryRequest { req with Language := "go", WPM := -1, Accuracy := 101 } =
      some (errValidation "wpm must be non-negative") ∧
    validateHistoryRequest { sampleCreate with Date := " \t\n" } =
      some (errValidation "date is required") := by
  refine ⟨validate_eq_none_iff req, validate_eq_firstFailure req, ?_, ?_, ?_, ?_, ?_⟩
  · rw [validate_eq_firstFailure]
    cases firstFailure req <;> simp
  · exact (validate_eq_none_iff _).mpr
      ⟨Or.inr (Or.inr rfl), by decide, by decide, by decide, by decide, by decide, by decide⟩
  · simp [validateHistoryRequest]
  · simp [validateHistoryRequest, isSupportedLanguage]
  · rw [validate_eq_firstFailure]
    decide

/-! ## Creating history entries -/

theorem Create_received (params : CreateHistoryParams) (db : SqlDB) :
    (HistoryRepository.Create params db).2.received = db.received ++ [Stmt.insert params] := by
  unfold HistoryRepository.Create
  cases db.fault with
  | some err => rfl
  | none =>
    simp only
    cases db.scanFault <;> rfl

theorem handleCreateHistory_of_invalid (tl : TimeLayout) (r : HttpRequest) (db : SqlDB)
    (userID : String) (req : createHistoryRequest) (err : GoError)
    (hu : r.ctxUserID = some userID) (hne : userID ≠ "") (hbody : r.body = .ok req)
    (hv : validateHistoryRequest req = some err) :
    handleCreateHistory tl r db = (WriteError 422 err.Error, db) := by
  unfold handleCreateHistory
  simp only [hu, hne, if_false, hbody, hv]

theorem handleCreateHistory_of_bad_date (tl : TimeLayout) (r : HttpRequest) (db : SqlDB)
    (userID : String) (req : createHistoryRequest) (err : GoError)
    (hu : r.ctxUserID = some userID) (hne : userID ≠ "") (hbody : r.body = .ok req)
    (hv : validateHistoryRequest req = none) (hp : tl.Parse req.Date = .error err) :
    handleCreateHistory tl r db =
      (WriteError 400 "Invalid date format, expected RFC3339", db) := by
  unfold handleCreateHistory
  simp only [hu, hne, if_false, hbody, hv, hp]

theorem handleCreateHistory_of_valid (tl : TimeLayout) (r : HttpRequest) (db : SqlDB)
    (userID : String) (req : createHistoryRequest) (t : Time)
    (hu : r.ctxUserID = some userID) (hne : userID ≠ "") (hbody : r.body = .ok req)
    (hv : validateHistoryRequest req = none) (hp : tl.Parse req.Date = .ok t) :
    (handleCreateHistory tl r db).2 =
      (HistoryRepository.Create
        { UserID := userID, Language := req.Language, WPM := req.WPM, Accuracy := req.Accuracy,
          Errors := req.Errors, DurationSeconds := req.Time, CompletedAt := t } db).2 := by
  unfold handleCreateHistory
  simp only [hu, hne, if_false, hbody, hv, hp]
  rcases HistoryRepository.Create
        { UserID := userID, Language := req.Language, WPM := req.WPM, Accuracy := req.Accuracy,
          Errors := req.Errors, DurationSeconds := req.Time, CompletedAt := t } db with ⟨res, db1⟩
  cases res <;> rfl

theorem handleCreateHistory_inserts (tl : TimeLayout) (r : HttpRequest) (db : SqlDB) :
    (handleCreateHistory tl r db).2 = db ∨
    ∃ userID req t, r.ctxUserID = some userID ∧ userID ≠ "" ∧ r.body = .ok req ∧
      validateHistoryRequest req = none ∧ tl.Parse req.Date = .ok t ∧
      (handleCreateHistory tl r db).2 =
        (HistoryRepository.Create
          { UserID := userID, Language := req.Language, WPM := req.WPM, Accuracy := req.Accuracy,
            Errors := req.Errors, DurationSeconds := req.Time, CompletedAt := t } db).2 := by
  cases hu : r.ctxUserID with
  | none =>
    left
    simp [handleCreateHistory, hu]
  | some userID =>
    by_cases hne : userID = ""
    · left
      simp [handleCreateHistory, hu, hne]
    · cases hbody : r.body with
      | error e =>
        left
        simp [handleCreateHistory, hu, hne, hbody]
      | ok req =>
        cases hv : validateHistoryRequest req with
        | some err =>
          left
          rw [handleCreateHistory_of_invalid tl r db userID req err hu hne hbody hv]
        | none =>
          cases hp : tl.Parse req.Date with
          | error err =>
            left
            rw [handleCreateHistory_of_bad_date tl r db userID req err hu hne hbody hv hp]
          | ok t =>
            right
            exact ⟨userID, req, t, rfl, hne, rfl, hv, hp,
              handleCreateHistory_of_valid tl r db userID req t hu hne hbody hv hp⟩

/-- C11: for an authenticated create request whose body decodes, with a date parser that, like
`time.Parse` for RFC 3339, accepts no blank text, `handleCreateHistory` sends the insert of
`HistoryRepository.Create` exactly when the language is one of "javascript", "python", "go",
wpm, errors and time are not negative, accuracy lies in [0, 100] and the date parses; the
parameters of that insert are the fields of the request, with time as duration, the parsed date
as completion time and the caller as user, so they satisfy the validation invariant; and when
no insert is sent the database is untouched. -/
theorem C11_create_invoked_iff_valid (tl : TimeLayout) (r : HttpRequest) (db : SqlDB)
    (userID : String) (req : createHistoryRequest)
    (hu : r.ctxUserID = some userID) (hne : userID ≠ "") (hbody : r.body = .ok req)
    (hblank : RejectsBlank tl) :
    ((∃ params, (handleCreateHistory tl r db).2.received = db.received ++ [Stmt.insert params]) ↔
      ((req.Language = "javascript" ∨ req.Language = "python" ∨ req.Language = "go") ∧
        0 ≤ req.WPM ∧ 0 ≤ req.Errors ∧ 0 ≤ req.Time ∧ 0 ≤ req.Accuracy ∧ req.Accuracy ≤ 100 ∧
        ∃ t, tl.Parse req.Date = .ok t)) ∧
    (∀ params, (handleCreateHistory tl r db).2.received = db.received ++ [Stmt.insert params] →
      (∃ t, tl.Parse req.Date = .ok t ∧
        params = { UserID := userID, Language := req.Language, WPM := req.WPM,
                   Accuracy := req.Accuracy, Errors := req.Errors, DurationSeconds := req.Time,
                   CompletedAt := t }) ∧
      ValidParams params) ∧
    ((¬ ∃ params, (handleCreateHistory tl r db).2.received =
        db.received ++ [Stmt.insert params]) →
      (handleCreateHistory tl r db).2 = db) := by
  cases hv : validateHistoryRequest req with
  | some err =>
    have hres := handleCreateHistory_of_invalid tl r db userID req err hu hne hbody hv
    have hno : ∀ params, (handleCreateHistory tl r db).2.received ≠
        db.received ++ [Stmt.insert params] := by
      intro params h
      rw [hres] at h
      simp at h
    refine ⟨⟨fun ⟨p, hp⟩ => absurd hp (hno p), ?_⟩, fun p hp => absurd hp (hno p),
      fun _ => by rw [hres]⟩
    rintro ⟨hl, h1, h2, h3, h4, h5, t, ht⟩
    have := (validate_eq_none_iff req).mpr ⟨hl, h1, h4, h5, h2, h3, hblank _ _ ht⟩
    rw [this] at hv
    cases hv
  | none =>
    obtain ⟨hl, h1, h4, h5, h2, h3, _⟩ := (validate_eq_none_iff req).mp hv
    cases hp : tl.Parse req.Date with
    | error err =>
      have hres := handleCreateHistory_of_bad_date tl r db userID req err hu hne hbody hv hp
      have hno : ∀ params, (handleCreateHistory tl r db).2.received ≠
          db.received ++ [Stmt.insert params] := by
        intro params h
        rw [hres] at h
        simp at h
      refine ⟨⟨fun ⟨p, hq⟩ => absurd hq (hno p), ?_⟩, fun p hq => absurd hq (hno p),
        fun _ => by rw [hres]⟩
      rintro ⟨_, _, _, _, _, _, t, ht⟩
      cases ht
    | ok t =>
      have hres := handleCreateHistory_of_valid tl r db userID req t hu hne hbody hv hp
      have hrec := Create_received
        { UserID := userID, Language := req.Language, WPM := req.WPM, Accuracy := req.Accuracy,
          Errors := req.Errors, DurationSeconds := req.Time, CompletedAt := t } db
      rw [← hres] at hrec
      refine ⟨⟨fun _ => ⟨hl, h1, h2, h3, h4, h5, t, rfl⟩, fun _ => ⟨_, hrec⟩⟩, ?_, ?_⟩
      · intro params hq
        rw [hrec] at hq
        have hpar := List.append_cancel_left hq
        simp only [List.cons.injEq, Stmt.insert.injEq, and_true] at hpar
        subst hpar
        exact ⟨⟨t, rfl, rfl⟩, hl, h1, h2, h3, h4, h5⟩
      · intro hn
        exact absurd ⟨_, hrec⟩ hn

/-- C11 at the create request of the scenario, sent by user `u1` to the sample database: the
insert reaches the database with the fields of the request. -/
theorem C11_create_invoked_iff_valid_witness :
    ((sampleRequest "" sampleCreate).ctxUserID = some "u1" ∧ "u1" ≠ "" ∧
      (sampleRequest "" sampleCreate).body = .ok sampleCreate ∧ RejectsBlank sampleLayout) ∧
    ∃ params, (handleCreateHistory sampleLayout (sampleRequest "" sampleCreate) sampleDB).2.received
      = sampleDB.received ++ [Stmt.insert params] :=
  have hblank : RejectsBlank sampleLayout := by
    intro s t h
    by_cases hs : s = "2024-01-01T00:00:00Z"
    · rw [hs]
      decide
    · simp [sampleLayout, hs] at h
  ⟨⟨rfl, by decide, rfl, hblank⟩,
    (C11_create_invoked_iff_valid sampleLayout (sampleRequest "" sampleCreate) sampleDB "u1"
      sampleCreate rfl (by decide) rfl hblank).1.mpr
      ⟨Or.inr (Or.inr rfl), by decide, by decide, by decide, by decide, by decide,
        1704067200, rfl⟩⟩

/-! ## Listing and deleting history entries -/

theorem completedDesc_sorted (l : List HistoryEntry) :
    (l.insertionSort completedDesc).Pairwise completedDesc := by
  haveI : IsTotal HistoryEntry completedDesc := ⟨fun a b => le_total b.CompletedAt a.CompletedAt⟩
  haveI : IsTrans HistoryEntry completedDesc :=
    ⟨fun a b c hab hbc => le_trans (α := Int) hbc hab⟩
  exact List.sorted_insertionSort completedDesc l

theorem selectByUser_sublist (rows : List HistoryEntry) (userID : String) (limit offset : Int) :
    (selectByUser rows userID limit offset).Sublist
      ((rows.filter (fun e => e.UserID = userID)).insertionSort completedDesc) :=
  (List.take_sublist _ _).trans (List.drop_sublist _ _)

theorem selectByUser_mem (rows : List HistoryEntry) (userID : String) (limit offset : Int)
    (e : HistoryEntry) (h : e ∈ selectByUser rows userID limit offset) :
    e ∈ rows ∧ e.UserID = userID := by
  have h1 := (selectByUser_sublist rows userID limit offset).subset h
  have h2 := (List.perm_insertionSort completedDesc _).subset h1
  have h3 := List.mem_filter.mp h2
  exact ⟨h3.1, by simpa using h3.2⟩

theorem selectByUser_sorted (rows : List HistoryEntry) (userID : String) (limit offset : Int) :
    (selectByUser rows userID limit offset).Pairwise completedDesc :=
  (completedDesc_sorted _).sublist (selectByUser_sublist rows userID limit offset)

theorem selectByUser_length (rows : List HistoryEntry) (userID : String) (limit offset : Int)
    (hl : 0 ≤ limit) : ((selectByUser rows userID limit offset).length : Int) ≤ limit := by
  have h : (selectByUser rows userID limit offset).length ≤ limit.toNat := by
    unfold selectByUser
    exact List.length_take_le _ _
  omega

theorem ListByUser_of_reachable (userID : String) (limit offset : Int) (db : SqlDB)
    (hr : Reachable db) (hl : 0 ≤ limit) (ho : 0 ≤ offset) :
    HistoryRepository.ListByUser userID limit offset db =
      (.ok (selectByUser db.practice_history userID limit offset),
        { db with received := db.received ++ [Stmt.select userID limit offset] }) := by
  obtain ⟨h1, h2, h3⟩ := hr
  have gl : ¬ limit < 0 := by omega
  have go : ¬ offset < 0 := by omega
  unfold HistoryRepository.ListByUser
  simp only [h1, gl, go, if_false, h2, h3]
  split <;> simp_all

theorem desc_sorted_unique (S R : List HistoryEntry) (hp : R.Perm S)
    (hR : R.Pairwise completedDesc)
    (hS : S.Pairwise (fun a b => b.CompletedAt < a.CompletedAt)) : R = S := by
  induction S generalizing R with
  | nil => exact hp.eq_nil
  | cons s rest ih =>
    cases R with
    | nil => exact absurd hp.symm.eq_nil (by simp)
    | cons r tail =>
      have hrs : r = s := by
        by_contra hne
        have hr : r ∈ s :: rest := hp.subset (List.mem_cons_self _ _)
        have hr1 : r ∈ rest := by
          rcases List.mem_cons.mp hr with h | h
          · exact absurd h hne
          · exact h
        have hlt : r.CompletedAt < s.CompletedAt := (List.pairwise_cons.mp hS).1 r hr1
        have hs : s ∈ r :: tail := hp.symm.subset (List.mem_cons_self _ _)
        have hs1 : s ∈ tail := by
          rcases List.mem_cons.mp hs with h | h
          · exact absurd h.symm hne
          · exact h
        have hle : s.CompletedAt ≤ r.CompletedAt := (List.pairwise_cons.mp hR).1 s hs1
        exact absurd hlt (not_lt_of_le hle)
      subst hrs
      rw [ih tail (List.Perm.cons_inv hp) (List.pairwise_cons.mp hR).2
        (List.pairwise_cons.mp hS).2]

theorem Create_of_reachable (params : CreateHistoryParams) (db : SqlDB) (hr : Reachable db) :
    HistoryRepository.Create params db =
      (.ok (insertedRow params db),
        { db with
          received := db.received ++ [Stmt.insert params]
          practice_history := db.practice_history ++ [insertedRow params db]
          idSeq := db.idSeq + 1 }) := by
  obtain ⟨h1, h2, _⟩ := hr
  unfold HistoryRepository.Create
  simp only [h1, h2]

/-- C12: on a reachable database, for a limit and an offset that are not negative, `ListByUser`
returns without error a sequence of rows of the table that all belong to the user, in
non-increasing order of `completed_at`, of length at most the limit, and empty when no row
matches; when the user has exactly three rows with `completed_at` T1 < T2 < T3 (limit at least
3, offset 0) it returns them as [T3, T2, T1]; and after a `Create` on an empty table,
`ListByUser` for that user with limit 50 and offset 0 returns exactly the created entry, which
carries the parameters, the generated id and the server's time. -/
theorem C12_list_by_user (userID : String) (limit offset : Int) (db : SqlDB)
    (hr : Reachable db) (hl : 0 ≤ limit) (ho : 0 ≤ offset) :
    ∃ entries, (HistoryRepository.ListByUser userID limit offset db).1 = .ok entries ∧
      (∀ e ∈ entries, e.UserID = userID ∧ e ∈ db.practice_history) ∧
      entries.Pairwise (fun a b => b.CompletedAt ≤ a.CompletedAt) ∧
      (entries.length : Int) ≤ limit ∧
      ((∀ e ∈ db.practice_history, e.UserID ≠ userID) → entries = []) ∧
      (∀ e1 e2 e3 : HistoryEntry,
        (db.practice_history.filter (fun e => e.UserID = userID)).Perm [e1, e2, e3] →
        e1.CompletedAt < e2.CompletedAt → e2.CompletedAt < e3.CompletedAt →
        3 ≤ limit → offset = 0 → entries = [e3, e2, e1]) ∧
      (∀ params : CreateHistoryParams, db.practice_history = [] →
        ∃ entry, (HistoryRepository.Create params db).1 = .ok entry ∧
          entry = insertedRow params db ∧ entry.UserID = params.UserID ∧
          entry.CompletedAt = params.CompletedAt ∧ entry.CreatedAt = db.now ∧
          (HistoryRepository.ListByUser params.UserID 50 0
            (HistoryRepository.Create params db).2).1 = .ok [entry]) := by
  refine ⟨selectByUser db.practice_history userID limit offset, ?_, ?_, ?_, ?_, ?_, ?_, ?_⟩
  · rw [ListByUser_of_reachable userID limit offset db hr hl ho]
  · intro e he
    have := selectByUser_mem _ _ _ _ e he
    exact ⟨this.2, this.1⟩
  · exact selectByUser_sorted _ _ _ _
  · exact selectByUser_length _ _ _ _ hl
  · intro hnone
    have hf : db.practice_history.filter (fun e => e.UserID = userID) = [] := by
      apply List.filter_eq_nil_iff.mpr
      intro e he
      simpa using hnone e he
    simp [selectByUser, hf]
  · intro e1 e2 e3 hperm h12 h23 h3 h0
    have hsort : (db.practice_history.filter (fun e => e.UserID = userID)).insertionSort
        completedDesc = [e3, e2, e1] := by
      apply desc_sorted_unique
      · refine (List.perm_insertionSort completedDesc _).trans (hperm.trans ?_)
        simpa using (List.reverse_perm [e1, e2, e3]).symm
      · exact completedDesc_sorted _
      · have h13 : e1.CompletedAt < e3.CompletedAt := lt_trans h12 h23
        simp [h12, h23, h13]
    have h3n : 3 ≤ limit.toNat := by omega
    unfold selectByUser
    rw [hsort, h0]
    simp only [Int.toNat_zero, List.drop_zero]
    exact List.take_of_length_le (by simpa using h3n)
  · intro params hempty
    have hc := Create_of_reachable params db hr
    have hr1 : Reachable (HistoryRepository.Create params db).2 := by
      rw [hc]
      exact hr
    refine ⟨insertedRow params db, by rw [hc], rfl, rfl, rfl, rfl, ?_⟩
    rw [ListByUser_of_reachable params.UserID 50 0 _ hr1 (by decide) (by decide), hc]
    simp [selectByUser, hempty, insertedRow]

/-- C12 at the database `threeDB`: the three rows of `u1`, completed at 20, 10 and 30, are
listed as 30, 20, 10. -/
theorem C12_list_by_user_witness :
    (Reachable threeDB ∧ (0 : Int) ≤ 50 ∧ (0 : Int) ≤ 0) ∧
    (HistoryRepository.ListByUser "u1" 50 0 threeDB).1 =
      .ok [sampleEntry "4" "u1" 30, sampleEntry "1" "u1" 20, sampleEntry "3" "u1" 10] :=
  ⟨⟨⟨rfl, rfl, rfl⟩, by decide, by decide⟩,
    (C12_list_by_user "u1" 50 0 threeDB ⟨rfl, rfl, rfl⟩ (by decide) (by decide)).elim
      (fun _ h => h.1.trans (congrArg Except.ok
        (h.2.2.2.2.2.1 (sampleEntry "3" "u1" 10) (sampleEntry "1" "u1" 20)
          (sampleEntry "4" "u1" 30)
          (List.Perm.swap (sampleEntry "3" "u1" 10) (sampleEntry "1" "u1" 20)
            [sampleEntry "4" "u1" 30])
          (by decide) (by decide) (by decide) rfl)))⟩

theorem DeleteByUser_of_reachable (userID : String) (db : SqlDB) (hf : db.fault = none) :
    HistoryRepository.DeleteByUser userID db =
      (none, { db with
        received := db.received ++ [Stmt.delete userID]
        practice_history := db.practice_history.filter (fun e => e.UserID ≠ userID) }) := by
  unfold HistoryRepository.DeleteByUser
  simp only [hf]

theorem ListByUser_of_no_rows (userID : String) (limit offset : Int) (db : SqlDB)
    (hf : db.fault = none) (hrows : db.rowsFault = none) (hl : 0 ≤ limit) (ho : 0 ≤ offset)
    (hnone : ∀ e ∈ db.practice_history, e.UserID ≠ userID) :
    (HistoryRepository.ListByUser userID limit offset db).1 = .ok [] := by
  have gl : ¬ limit < 0 := by omega
  have go : ¬ offset < 0 := by omega
  have hsel : selectByUser db.practice_history userID limit offset = [] := by
    have hfil : db.practice_history.filter (fun e => e.UserID = userID) = [] := by
      apply List.filter_eq_nil_iff.mpr
      intro e he
      simpa using hnone e he
    simp [selectByUser, hfil]
  unfold HistoryRepository.ListByUser
  simp only [hf, gl, go, if_false, hsel, hrows]

/-- C13: a `DeleteByUser` for user `u` that reaches the database returns nil, also when no row
matches (then the table is unchanged); it removes every row of `u` and leaves the rows of every
other user as they are; right after it `ListByUser` for `u` with limit 50 and offset 0, when
its iteration does not fail, returns the empty sequence and no error; and a second
`DeleteByUser` for `u` returns nil and leaves the table unchanged. -/
theorem C13_delete_by_user (userID : String) (db : SqlDB) (hf : db.fault = none) :
    (HistoryRepository.DeleteByUser userID db).1 = none ∧
    (HistoryRepository.DeleteByUser userID db).2.practice_history =
      db.practice_history.filter (fun e => e.UserID ≠ userID) ∧
    (∀ e ∈ (HistoryRepository.DeleteByUser userID db).2.practice_history, e.UserID ≠ userID) ∧
    (∀ v, v ≠ userID →
      (HistoryRepository.DeleteByUser userID db).2.practice_history.filter
        (fun e => e.UserID = v) = db.practice_history.filter (fun e => e.UserID = v)) ∧
    ((∀ e ∈ db.practice_history, e.UserID ≠ userID) →
      (HistoryRepository.DeleteByUser userID db).2.practice_history = db.practice_history) ∧
    (db.rowsFault = none →
      (HistoryRepository.ListByUser userID 50 0
        (HistoryRepository.DeleteByUser userID db).2).1 = .ok []) ∧
    (HistoryRepository.DeleteByUser userID (HistoryRepository.DeleteByUser userID db).2).1
      = none ∧
    (HistoryRepository.DeleteByUser userID
      (HistoryRepository.DeleteByUser userID db).2).2.practice_history =
      (HistoryRepository.DeleteByUser userID db).2.practice_history := by
  have hd := DeleteByUser_of_reachable userID db hf
  have hf1 : (HistoryRepository.DeleteByUser userID db).2.fault = none := by
    rw [hd]
    exact hf
  have hrows1 : (HistoryRepository.DeleteByUser userID db).2.practice_history =
      db.practice_history.filter (fun e => e.UserID ≠ userID) := by
    rw [hd]
  have hgone : ∀ e ∈ (HistoryRepository.DeleteByUser userID db).2.practice_history,
      e.UserID ≠ userID := by
    intro e he
    rw [hrows1] at he
    simpa using (List.mem_filter.mp he).2
  refine ⟨by rw [hd], hrows1, hgone, ?_, ?_, ?_, ?_, ?_⟩
  · intro v hv
    rw [hrows1, List.filter_filter]
    apply List.filter_congr
    intro e _
    by_cases hev : e.UserID = v
    · simp [hev, hv]
    · simp [hev]
  · intro hnone
    rw [hrows1]
    apply List.filter_eq_self.mpr
    intro e he
    simpa using hnone e he
  · intro hrows
    apply ListByUser_of_no_rows _ _ _ _ hf1 _ (by decide) (by decide) hgone
    rw [hd]
    exact hrows
  · rw [DeleteByUser_of_reachable userID _ hf1]
  · rw [DeleteByUser_of_reachable userID _ hf1]
    simp only
    apply List.filter_eq_self.mpr
    intro e he
    simpa using hgone e he

/-- C13 at the sample database and user `u1`: the delete returns nil, the row of `u2` is all
that is left, and the list of `u1` is empty afterwards. -/
theorem C13_delete_by_user_witness :
    sampleDB.fault = none ∧
    (HistoryRepository.DeleteByUser "u1" sampleDB).1 = none ∧
    (HistoryRepository.DeleteByUser "u1" sampleDB).2.practice_history = [sampleEntry "2" "u2" 20] ∧
    (HistoryRepository.ListByUser "u1" 50 0 (HistoryRepository.DeleteByUser "u1" sampleDB).2).1
      = .ok [] :=
  ⟨rfl, (C13_delete_by_user "u1" sampleDB rfl).1,
    (C13_delete_by_user "u1" sampleDB rfl).2.1.trans (by decide),
    (C13_delete_by_user "u1" sampleDB rfl).2.2.2.2.2.1 rfl⟩

end CodeType
